import Mathlib

/-!
# Admin panel: analytics reporter and booking manager

A shallow embedding of `admin/js/analytics-admin.js` and `admin/js/bookings.js`
and the properties of their aggregation and state-transition code.

Modelling conventions.

* A JavaScript value read from the store is a `JVal`.  An object is the list of
  its own properties in enumeration order (the order of `Object.entries`); an
  array is the object of its index properties.  Numbers are integers.  The
  bounce rate, which rounds a quotient and then its product by 100, is computed
  with the rounding of doubles (`roundDouble`); the single quotient of the
  average duration is formed exactly before `Math.round` is applied to it.
* A record of the store is read at fixed property names, none of which names a
  property of `Object.prototype`, so a property that is not an own property of
  a record reads as `undefined`.  The tables of counts, which are indexed by
  keys taken from the data, are embedded with the properties they inherit from
  `Object.prototype` (`bump`).
* Built-ins whose result depends on the host (the URL parser, Unicode
  lower-casing, coercion of strings and objects to numbers or to property keys,
  the text of a built-in function, the order in which `sort` leaves an array
  when its comparator returns `NaN`) are fields of `Host`, and every statement
  holds for every host.
* A function that writes into the page is embedded as the function computing
  the value it writes.
* An operation on the store is embedded as the function from the replies of its
  collaborators (the store, the dialogs) to the sequence of calls it makes to
  them.
-/

namespace AnalyticsAdmin

/-! ## Values -/

/-- A JavaScript value as the store returns it. -/
inductive JVal where
  | undefined
  | null
  | bool (b : Bool)
  | num (n : Int)
  | str (s : String)
  | obj (props : List (String × JVal))

/-- The own properties of an object, in enumeration order. -/
abbrev JObj := List (String × JVal)

namespace JVal

mutual
/-- Structural equality of values. -/
def beq : JVal → JVal → Bool
  | undefined, undefined => true
  | null, null => true
  | bool a, bool b => a == b
  | num a, num b => a == b
  | str a, str b => a == b
  | obj ps, obj qs => beqProps ps qs
  | _, _ => false
/-- Structural equality of property lists. -/
def beqProps : List (String × JVal) → List (String × JVal) → Bool
  | [], [] => true
  | (k, v) :: ps, (l, w) :: qs => k == l && beq v w && beqProps ps qs
  | _, _ => false
end

mutual
theorem beq_iff : ∀ a b : JVal, beq a b = true ↔ a = b
  | undefined, b => by cases b <;> simp [beq]
  | null, b => by cases b <;> simp [beq]
  | bool a, b => by cases b <;> simp [beq]
  | num a, b => by cases b <;> simp [beq]
  | str a, b => by cases b <;> simp [beq]
  | obj ps, b => by
      cases b <;> simp [beq]
      exact beqProps_iff ps _
theorem beqProps_iff :
    ∀ ps qs : List (String × JVal), beqProps ps qs = true ↔ ps = qs
  | [], qs => by cases qs <;> simp [beqProps]
  | (k, v) :: ps, qs => by
      cases qs with
      | nil => simp [beqProps]
      | cons q qs =>
        obtain ⟨l, w⟩ := q
        simp [beqProps, beq_iff v w, beqProps_iff ps qs, and_assoc]
end

instance : DecidableEq JVal := fun a b => decidable_of_iff _ (beq_iff a b)

/-- JavaScript truthiness (`ToBoolean`): what `if (v)` and `v || w` test. -/
def truthy : JVal → Bool
  | undefined => false
  | null => false
  | bool b => b
  | num n => n != 0
  | str s => s != ""
  | obj _ => true

/-- The operator `a || b`. -/
def or (a b : JVal) : JVal := if a.truthy then a else b

end JVal

open JVal

/-- Built-ins of the host environment that the code calls and whose result is
not determined by the repository. -/
structure Host where
  /-- `ToNumber` on a string or an object; `none` is `NaN`. -/
  toNumber : JVal → Option Int
  /-- `ToString` on a value that is not a string (a property key, a URL). -/
  toStr : JVal → String
  /-- `String.prototype.toLowerCase` on a string with a non-ASCII character. -/
  toLowerCase : String → String
  /-- `new URL(s).hostname`; `none` when the constructor throws. -/
  hostname : String → Option String
  /-- The operator `+` when an operand is not a number. -/
  plus : JVal → JVal → JVal
  /-- The expression `d.charAt(0).toUpperCase() + d.slice(1).toLowerCase()` on
  a string with a non-ASCII character. -/
  capitalize : String → String
  /-- The time value of `new Date(v)`; `none` is `NaN` (an invalid date). -/
  dateValue : JVal → Option Int
  /-- The text `ToString` gives for the function that `Object.prototype` holds
  under a name, such as `function toString() { [native code] }`. -/
  functionText : String → String
  /-- `Array.prototype.sort` with the comparator `b[1] - a[1]` on the entries of
  a table in which some count is not a number: the comparator returns `NaN` for
  a pair with such a count and need not be consistent, and the order of the
  result is then implementation-defined. -/
  engineSort : List (String × JVal) → List (String × JVal)

/-- The read `o.k` of an object: `undefined` when `k` is not a property. -/
def prop (o : JObj) (k : String) : JVal := (o.lookup k).getD .undefined

/-- The write `o.k = v` for a key that is not an array index: an existing
property keeps its place, a new one is enumerated last. -/
def setProp : JObj → String → JVal → JObj
  | [], k, v => [(k, v)]
  | (k', v') :: ps, k, v =>
    if k' = k then (k', v) :: ps else (k', v') :: setProp ps k v

/-- The index properties of a string, one per character. -/
def charEntries (s : String) : List (String × JVal) :=
  s.data.enum.map fun ic => (toString ic.1, .str (String.singleton ic.2))

/-- `Object.entries(v || {})`. -/
def entriesOrEmpty : JVal → List (String × JVal)
  | .obj ps => ps
  | .str s => charEntries s
  | _ => []

/-! ## Flattening of range-query results -/

/-- `flattenRangePageViews(raw)`: the array `arr` after the three nested
loops. -/
def flattenRangePageViews (raw : JVal) : List JObj :=
  (entriesOrEmpty raw).foldl (fun arr ds =>
    (entriesOrEmpty ds.2).foldl (fun arr se =>
      match se.2 with
      | .obj entries =>
        entries.foldl (fun arr e =>
          match e.2 with
          | .obj pv =>
            if (prop pv "timestamp").truthy then
              arr ++ [setProp (setProp pv "_slug" (.str se.1)) "_date" (.str ds.1)]
            else arr
          | _ => arr) arr
      | _ => arr) arr) []

/-- `flattenRangeSessions(raw)`: the array `arr` after the two nested loops. -/
def flattenRangeSessions (raw : JVal) : List JObj :=
  (entriesOrEmpty raw).foldl (fun arr ds =>
    (entriesOrEmpty ds.2).foldl (fun arr e =>
      match e.2 with
      | .obj s => arr ++ [setProp s "_date" (.str ds.1)]
      | _ => arr) arr) []

/-! ### Notions used to state the properties of the flatteners -/

/-- The leaf records of a page-view tree `date → slug → id → record`, each with
the date key and the slug key it is stored under. -/
def pageViewLeaves (raw : JVal) : List (String × String × JVal) :=
  (entriesOrEmpty raw).flatMap fun ds =>
    (entriesOrEmpty ds.2).flatMap fun se =>
      match se.2 with
      | .obj entries => entries.map fun e => (ds.1, se.1, e.2)
      | _ => []

/-- The leaf records of a session tree `date → id → record`, each with the date
key it is stored under. -/
def sessionLeaves (raw : JVal) : List (String × JVal) :=
  (entriesOrEmpty raw).flatMap fun ds =>
    (entriesOrEmpty ds.2).map fun e => (ds.1, e.2)

/-- A value has a timestamp: it is a record whose `timestamp` is set (truthy). -/
def hasTimestamp : JVal → Bool
  | .obj r => (prop r "timestamp").truthy
  | _ => false

/-- A value is an object (what `v && typeof v === "object"` tests). -/
def isObject : JVal → Bool
  | .obj _ => true
  | _ => false

/-- The record a page-view leaf becomes in the flat array, if it is kept. -/
def tagPageView (l : String × String × JVal) : Option JObj :=
  match l.2.2 with
  | .obj pv =>
    if (prop pv "timestamp").truthy then
      some (setProp (setProp pv "_slug" (.str l.2.1)) "_date" (.str l.1))
    else none
  | _ => none

/-- The record a session leaf becomes in the flat array, if it is kept. -/
def tagSession (l : String × JVal) : Option JObj :=
  match l.2 with
  | .obj s => some (setProp s "_date" (.str l.1))
  | _ => none

/-- A page-view tree with three leaves, one of them without a timestamp. -/
def samplePageViews : JVal :=
  .obj [("2024-05-01", .obj [("home", .obj [
            ("-a1", .obj [("timestamp", .num 1714550000000), ("visitorId", .str "v1")]),
            ("-a2", .obj [("visitorId", .str "v2")])])]),
        ("2024-05-02", .obj [("about", .obj [
            ("-a3", .obj [("timestamp", .num 1714640000000)])])])]

/-- A session tree with one session, which carries no timestamp. -/
def sampleSessions : JVal :=
  .obj [("2024-05-01", .obj [("s1", .obj [("duration", .num 30), ("pages", .num 2)])])]

/-! ## Numbers and coercions -/

/-- `ToNumber`; `none` is `NaN`. -/
def toNumber (H : Host) : JVal → Option Int
  | .undefined => none
  | .null => some 0
  | .bool b => some (if b then 1 else 0)
  | .num n => some n
  | v => H.toNumber v

/-- `ToString`, as applied to a property key or to the argument of `new URL`. -/
def toStr (H : Host) : JVal → String
  | .str s => s
  | v => H.toStr v

/-- Lower-casing of the letters `A` to `Z`. -/
def asciiLower (s : String) : String := String.mk (s.data.map Char.toLower)

/-- The method `s.toLowerCase()`: on a string of ASCII characters it lower-cases
the letters `A` to `Z`; on any other string it is the host's. -/
def toLowerCase (H : Host) (s : String) : String :=
  if s.data.all (fun c => decide (c.toNat < 128)) = true then asciiLower s
  else H.toLowerCase s

/-- The method `arr.filter(p)` for a callback that may throw; `none` when a
call throws. -/
def filterThrow {α : Type} (p : α → Option Bool) : List α → Option (List α)
  | [] => some []
  | a :: as =>
    match p a with
    | none => none
    | some b =>
      match filterThrow p as with
      | none => none
      | some r => some (if b then a :: r else r)

/-- The comparison `a <= n` with a number on the right; false on `NaN`. -/
def jsLe (H : Host) (a : JVal) (n : Int) : Bool :=
  match toNumber H a with
  | some x => decide (x ≤ n)
  | none => false

/-- The comparison `a < n` with a number on the right; false on `NaN`. -/
def jsLt (H : Host) (a : JVal) (n : Int) : Bool :=
  match toNumber H a with
  | some x => decide (x < n)
  | none => false

/-- The operator `a + b`. -/
def jsAdd (H : Host) : JVal → JVal → JVal
  | .num a, .num b => .num (a + b)
  | a, b => H.plus a b

/-- `Math.round(a / b)` for a divisor `b > 0`: the exact quotient rounded to
the nearest integer, a half rounded up. -/
def mathRoundDiv (a : Int) (b : Nat) : Int := (2 * a + b) / (2 * b)

/-- The integer nearest to a rational number, a tie going to the even one. -/
def roundHalfEven (q : ℚ) : Int :=
  if q - ⌊q⌋ < 1 / 2 then ⌊q⌋
  else if 1 / 2 < q - ⌊q⌋ then ⌊q⌋ + 1
  else if ⌊q⌋ % 2 = 0 then ⌊q⌋ else ⌊q⌋ + 1

/-- The double nearest to a real number `x` (IEEE 754 binary64, round to
nearest, ties to even), which is what an arithmetic operation on numbers
returns when its exact result is `x`: for `2 ^ e ≤ |x| < 2 ^ (e + 1)` it is the
multiple of `2 ^ (e - 52)` nearest to `x`.  Overflow and subnormal numbers are
left out: the numbers rounded here are a quotient of two array lengths and its
product by 100. -/
def roundDouble (x : ℚ) : ℚ :=
  if x = 0 then 0
  else roundHalfEven (x / 2 ^ (Int.log 2 |x| - 52)) * 2 ^ (Int.log 2 |x| - 52)

/-- `Math.round(x)`: the integer nearest to `x`, a half going up. -/
def mathRound (x : ℚ) : Int := ⌊x + 1 / 2⌋

/-! ## KPIs (`renderKPIs`) -/

/-- `s.add(v)` on a `Set`, kept as the list of its members in insertion order.
Members are compared structurally, which is `SameValueZero` on the strings and
numbers that identifiers are. -/
def setAdd (s : List JVal) (v : JVal) : List JVal := if v ∈ s then s else s ++ [v]

/-- The set `visitors` that `renderKPIs` builds from the page views. -/
def visitors (pvArr : List JObj) : List JVal :=
  pvArr.foldl (fun vs pv =>
    if (prop pv "visitorId").truthy then setAdd vs (prop pv "visitorId")
    else if (prop pv "sessionId").truthy then setAdd vs (prop pv "sessionId")
    else vs) []

/-- The value written to `an-visitors`: `visitors.size`. -/
def uniqueVisitors (pvArr : List JObj) : Nat := (visitors pvArr).length

/-- The identifier a page view is counted under: its `visitorId` when it has
one, else its `sessionId`, when it has one. -/
def visitorKey (pv : JObj) : Option JVal :=
  if (prop pv "visitorId").truthy then some (prop pv "visitorId")
  else if (prop pv "sessionId").truthy then some (prop pv "sessionId")
  else none

/-- The array `durations` of `renderKPIs`. -/
def durations (sessArr : List JObj) : List JVal :=
  (sessArr.filter fun s => (prop s "duration").truthy).map fun s => prop s "duration"

/-- The variable `avgDuration` of `renderKPIs`; `none` is `NaN`. -/
def avgDuration (H : Host) (sessArr : List JObj) : Option Int :=
  if (durations sessArr).length ≠ 0 then
    (toNumber H ((durations sessArr).foldl (jsAdd H) (.num 0))).map fun sum =>
      mathRoundDiv sum (durations sessArr).length
  else some 0

/-- The predicate of the bounce filter:
`(s.pages || 1) <= 1 || (s.duration || 0) < 10`. -/
def isBounce (H : Host) (s : JObj) : Bool :=
  jsLe H ((prop s "pages").or (.num 1)) 1 || jsLt H ((prop s "duration").or (.num 0)) 10

/-- The variable `bounces` of `renderKPIs`. -/
def bounces (H : Host) (sessArr : List JObj) : Nat := (sessArr.filter (isBounce H)).length

/-- The variable `bounceRate` of `renderKPIs`:
`sessArr.length ? Math.round((bounces / sessArr.length) * 100) : 0`, the
quotient and the product being doubles. -/
def bounceRate (H : Host) (sessArr : List JObj) : Int :=
  if sessArr.length ≠ 0 then
    mathRound (roundDouble (roundDouble ((bounces H sessArr : ℚ) / sessArr.length) * 100))
  else 0

/-- The read `p.k` of any value: `none` when it throws (`p` is `null` or
`undefined`); a primitive has no such property. -/
def readProp (p : JVal) (k : String) : Option JVal :=
  match p with
  | .undefined => none
  | .null => none
  | .obj ps => some (prop ps k)
  | _ => some .undefined

/-- The expression `p.timestamp || p.lastSeen || 0`; `none` when it throws. -/
def lastSeenOf (p : JVal) : Option JVal :=
  (readProp p "timestamp").bind fun t =>
    if t.truthy then some t
    else (readProp p "lastSeen").map fun l => l.or (.num 0)

/-- The filter predicate `now - (p.timestamp || p.lastSeen || 0) < 60000`;
`none` when it throws. -/
def isLive (H : Host) (now : Int) (p : JVal) : Option Bool :=
  (lastSeenOf p).map fun t =>
    match toNumber H t with
    | some n => decide (now - n < 60000)
    | none => false

/-- The live count `renderKPIs` reads on demand:
`Object.values(presData).filter(..).length`; `none` when the filter throws. -/
def liveOnDemand (H : Host) (now : Int) (val : JVal) : Option Nat :=
  (filterThrow (isLive H now) ((entriesOrEmpty val).map Prod.snd)).map List.length

/-- The live count the callback of `subscribeLiveVisitors` computes:
`Object.entries(data).filter(..).length`; `none` when the filter throws. -/
def liveSubscribed (H : Host) (now : Int) (val : JVal) : Option Nat :=
  (filterThrow (fun entry => isLive H now entry.2) (entriesOrEmpty val)).map List.length

/-! ### Notions used to state the properties of the KPIs -/

/-- A property that is absent or a number. -/
def numOrAbsent : JVal → Bool
  | .undefined => true
  | .num _ => true
  | _ => false

/-- The number a property holds, `dflt` standing for an absent one. -/
def numOr (v : JVal) (dflt : Int) : Int :=
  match v with
  | .num n => n
  | _ => dflt

/-- The durations of the sessions whose duration is defined, zero included. -/
def definedDurations (sessArr : List JObj) : List Int :=
  sessArr.filterMap fun s =>
    match prop s "duration" with
    | .num n => some n
    | _ => none

/-- The durations of the sessions whose duration is defined and not zero. -/
def nonZeroDurations (sessArr : List JObj) : List Int :=
  (definedDurations sessArr).filter fun d => d ≠ 0

/-- The arithmetic mean of a list of integers rounded to the nearest integer,
and 0 for the empty list. -/
def roundedMean (ds : List Int) : Int :=
  if ds.length ≠ 0 then mathRoundDiv ds.sum ds.length else 0

/-- Two sessions, one of duration 0 and one of duration 10. -/
def sampleDurations : List JObj := [[("duration", .num 0)], [("duration", .num 10)]]

/-- Forty sessions of three pages each, 23 of them shorter than 10 s. -/
def sampleFortySessions : List JObj :=
  List.replicate 23 [("duration", .num 4), ("pages", .num 3)]
    ++ List.replicate 17 [("duration", .num 40), ("pages", .num 3)]

/-! ## Top pages and top referrers -/

/-- The number a string of decimal digits denotes. -/
def digitsValue (cs : List Char) : Nat := cs.foldl (fun n c => 10 * n + (c.toNat - 48)) 0

/-- The array index a property key denotes, if it is one: a canonical decimal
numeral below `2^32 - 1`. -/
def arrayIndex? (k : String) : Option Nat :=
  if k.data ≠ [] ∧ k.data.all Char.isDigit = true
      ∧ (k.data.head? ≠ some '0' ∨ k.data.length = 1)
      ∧ digitsValue k.data < 4294967295 then
    some (digitsValue k.data)
  else none

/-- The names under which `Object.prototype` holds a function. -/
def prototypeFunctions : List String :=
  ["constructor", "__defineGetter__", "__defineSetter__", "hasOwnProperty",
    "__lookupGetter__", "__lookupSetter__", "isPrototypeOf", "propertyIsEnumerable",
    "toString", "valueOf", "toLocaleString"]

/-- The statement `counts[k] = (counts[k] || 0) + 1` on a table of counts
created as `{}`, kept as the list of its own properties in the order in which
they were created.  An own property `k` is read and written.  When the table has
no own property `k`, the read goes to `Object.prototype`: under `__proto__` it
finds an object, and the write of the text `[object Object]1` to `__proto__`
calls the setter of `Object.prototype`, which ignores a value that is not an
object, so the table is left as it is; under the name of a function it finds
that function, and the text of the function followed by `1` becomes the value of
a new own property; under any other name it finds nothing, and the new property
holds 1. -/
def bump (H : Host) : JObj → String → JObj
  | [], k =>
    if k = "__proto__" then []
    else if k ∈ prototypeFunctions then [(k, .str (H.functionText k ++ "1"))]
    else [(k, .num 1)]
  | (k', v) :: cs, k =>
    if k' = k then (k', jsAdd H (v.or (.num 0)) (.num 1)) :: cs
    else (k', v) :: bump H cs k

/-- The table of counts after the `forEach` loop over the keys. -/
def countKeys (H : Host) (keys : List String) : JObj := keys.foldl (bump H) []

/-- `Object.entries(counts)`: the properties whose key is an array index come
first, in ascending numeric order, then the others in creation order. -/
def objectEntries {β : Type} (created : List (String × β)) : List (String × β) :=
  (created.filter fun e => (arrayIndex? e.1).isSome).insertionSort
      (fun a b => (arrayIndex? a.1).getD 0 ≤ (arrayIndex? b.1).getD 0)
    ++ created.filter fun e => !(arrayIndex? e.1).isSome

/-- The comparator `function(a, b) { return b[1] - a[1]; }`; `none` is `NaN`. -/
def compareCounts (H : Host) (a b : String × JVal) : Option Int :=
  match toNumber H b.2, toNumber H a.2 with
  | some x, some y => some (x - y)
  | _, _ => none

/-- The call `entries.sort(function(a, b) { return b[1] - a[1]; })`.  When every
count is a number the comparator is consistent and the result is the stable
sort of the entries by descending count.  When some count is not a number the
comparator returns `NaN` for a pair with that count, which `sort` takes for 0,
and the order is the engine's. -/
def sortByCount (H : Host) (entries : JObj) : JObj :=
  if entries.all (fun e => (toNumber H e.2).isSome) then
    entries.insertionSort fun a b => (compareCounts H a b).getD 0 ≤ 0
  else H.engineSort entries

/-- The array `sorted` both renderers build:
`Object.entries(counts).sort((a, b) => b[1] - a[1]).slice(0, 10)`. -/
def topTen (H : Host) (keys : List String) : JObj :=
  (sortByCount H (objectEntries (countKeys H keys))).take 10

/-- The value `pv._slug || pv.page || pv.path || '/'`. -/
def pageOf (pv : JObj) : JVal :=
  (((prop pv "_slug").or (prop pv "page")).or (prop pv "path")).or (.str "/")

/-- The array `sorted` of `renderTopPages`. -/
def renderTopPages (H : Host) (pvArr : List JObj) : JObj :=
  topTen H (pvArr.map fun pv => toStr H (pageOf pv))

/-- The value of `ref` when `renderTopReferrers` uses it as a key. -/
def referrerOf (H : Host) (pv : JObj) : JVal :=
  if (prop pv "referrer").or (.str "Direct") ≠ .str "Direct" then
    match H.hostname (toStr H ((prop pv "referrer").or (.str "Direct"))) with
    | some h => .str h
    | none => (prop pv "referrer").or (.str "Direct")
  else .str "Direct"

/-- The array `sorted` of `renderTopReferrers`. -/
def renderTopReferrers (H : Host) (pvArr : List JObj) : JObj :=
  topTen H (pvArr.map fun pv => toStr H (referrerOf H pv))

/-! ### Notions used to state the properties of the top-ten lists -/

/-- The names of the properties of `Object.prototype`. -/
def prototypeNames : List String := "__proto__" :: prototypeFunctions

/-- The entry of a table of counts that holds the number `e.2` under `e.1`. -/
def numbered (e : String × Nat) : String × JVal := (e.1, .num e.2)

/-- A tally with one more occurrence of the key `k`: the count of `k` goes up
by one, and a key not yet in the tally is put last, with the count 1. -/
def tallyBump : List (String × Nat) → String → List (String × Nat)
  | [], k => [(k, 1)]
  | (k', n) :: cs, k => if k' = k then (k', n + 1) :: cs else (k', n) :: tallyBump cs k

/-- The tally of a list of keys: each distinct key with the number of its
occurrences, in the order in which the keys were first seen. -/
def tallyKeys (keys : List String) : List (String × Nat) := keys.foldl tallyBump []

/-- The first ten entries of the tally of a list of keys, once it is put in the
order of `Object.entries` and then sorted by descending count, equal counts
keeping their order. -/
def tallyTop (keys : List String) : List (String × Nat) :=
  ((objectEntries (tallyKeys keys)).insertionSort fun a b => a.2 ≥ b.2).take 10

/-- The order `Object.entries` gives two keys of a table of counts built from
`keys`: array indices first, in ascending numeric order, then the other keys in
the order in which they were first seen. -/
def entryBefore (keys : List String) (a b : String) : Prop :=
  match arrayIndex? a, arrayIndex? b with
  | some i, some j => i ≤ j
  | some _, none => True
  | none, some _ => False
  | none, none => keys.indexOf a < keys.indexOf b

/-- What a top-ten list of the groups of `keys` is: at most 10 of the distinct
keys, each with the number of its occurrences, in non-increasing order of
count, and no key left out has a count above that of the last entry. -/
def IsTopList (keys : List String) (top : List (String × Nat)) : Prop :=
  top.length ≤ 10
  ∧ top.length = min 10 keys.toFinset.card
  ∧ top.Pairwise (fun a b => b.2 ≤ a.2)
  ∧ (∀ e ∈ top, e.1 ∈ keys ∧ e.2 = keys.count e.1)
  ∧ (∀ k ∈ keys, k ∉ top.map Prod.fst →
      ∀ l, top.getLast? = some l → keys.count k ≤ l.2)

/-- Two page views, the first of the page `10`, the second of the page `2`. -/
def sampleDigitPages : List JObj := [[("_slug", .str "10")], [("_slug", .str "2")]]

/-- Two page views, the first referred by `10`, the second by `2`, neither of
which is a URL. -/
def sampleDigitReferrers : List JObj := [[("referrer", .str "10")], [("referrer", .str "2")]]

/-- Twelve page views of eleven pages, the page `c` being seen twice. -/
def sampleTwelvePages : List JObj :=
  [[("_slug", .str "a")], [("_slug", .str "b")], [("_slug", .str "c")],
    [("_slug", .str "d")], [("_slug", .str "e")], [("_slug", .str "f")],
    [("_slug", .str "g")], [("_slug", .str "h")], [("_slug", .str "i")],
    [("_slug", .str "j")], [("_slug", .str "k")], [("_slug", .str "c")]]

/-- Four page views: three of the page `__proto__`, then one of the page `a`. -/
def sampleProtoPages : List JObj :=
  [[("_slug", .str "__proto__")], [("_slug", .str "__proto__")],
    [("_slug", .str "__proto__")], [("_slug", .str "a")]]

/-- Four page views: three referred by `__proto__`, then one referred by `a`,
neither of which is a URL. -/
def sampleProtoReferrers : List JObj :=
  [[("referrer", .str "__proto__")], [("referrer", .str "__proto__")],
    [("referrer", .str "__proto__")], [("referrer", .str "a")]]

/-! ## Traffic sources -/

/-- The four categories of `renderTrafficSources`. -/
inductive Source where
  | Direct
  | Social
  | Search
  | Referral
  deriving DecidableEq, Repr

/-- The search engines the code lists. -/
def searchEngines : List String := ["google", "bing", "yahoo", "duckduckgo", "baidu"]

/-- The social platforms the code lists. -/
def socialPlatforms : List String :=
  ["facebook", "instagram", "twitter", "linkedin", "tiktok", "pinterest", "youtube"]

/-- The expression `(pv.source || 'direct').toLowerCase()`; `none` when it
throws because the value has no such method. -/
def sourceOf (H : Host) (pv : JObj) : Option String :=
  match (prop pv "source").or (.str "direct") with
  | .str s => some (toLowerCase H s)
  | _ => none

/-- The category the chain of tests selects for the lower-cased source. -/
def classifySource (src : String) : Source :=
  if src = "direct" then .Direct
  else if src ∈ searchEngines then .Search
  else if src ∈ socialPlatforms then .Social
  else .Referral

/-- The object `sources` of `renderTrafficSources`. -/
structure SourceCounts where
  Direct : Nat
  Social : Nat
  Search : Nat
  Referral : Nat
  deriving DecidableEq, Repr

/-- The increment `sources.X++` for the category `c`. -/
def SourceCounts.incr (s : SourceCounts) : Source → SourceCounts
  | .Direct => { s with Direct := s.Direct + 1 }
  | .Social => { s with Social := s.Social + 1 }
  | .Search => { s with Search := s.Search + 1 }
  | .Referral => { s with Referral := s.Referral + 1 }

/-- The object `sources` after the `forEach` loop of `renderTrafficSources`;
`none` when the loop throws. -/
def renderTrafficSources (H : Host) (pvArr : List JObj) : Option SourceCounts :=
  pvArr.foldlM (fun sources pv => (sourceOf H pv).map fun src => sources.incr (classifySource src))
    ⟨0, 0, 0, 0⟩

/-! ### Notions used to state the properties of the traffic sources and of the
live count -/

/-- A property that is absent or a string. -/
def strOrAbsent : JVal → Bool
  | .undefined => true
  | .str _ => true
  | _ => false

/-- The category of a page view whose `source` is absent or a string: `Direct`
when the source is absent (or empty) or is `direct`, `Search` when it is a
listed search engine, `Social` when it is a listed social platform, `Referral`
otherwise, the source being compared in lower case. -/
def sourceCategory (H : Host) (pv : JObj) : Source :=
  match prop pv "source" with
  | .str s =>
    if s = "" then .Direct
    else if toLowerCase H s = "direct" then .Direct
    else if toLowerCase H s ∈ searchEngines then .Search
    else if toLowerCase H s ∈ socialPlatforms then .Social
    else .Referral
  | _ => .Direct

/-- The sum of the four counts. -/
def SourceCounts.total (s : SourceCounts) : Nat := s.Direct + s.Social + s.Search + s.Referral

/-- A presence record: an object whose `timestamp` and `lastSeen` are numbers
or absent. -/
def isPresenceRecord : JVal → Bool
  | .obj r => numOrAbsent (prop r "timestamp") && numOrAbsent (prop r "lastSeen")
  | _ => false

/-- The time a presence record was last seen: its `timestamp` when it has one
(a non-zero number), else its `lastSeen`, else 0. -/
def lastSeenTime (r : JObj) : Int :=
  if numOr (prop r "timestamp") 0 ≠ 0 then numOr (prop r "timestamp") 0
  else numOr (prop r "lastSeen") 0

/-- A presence record is live at `now`: it was last seen less than 60000 ms
ago. -/
def isFresh (now : Int) : JVal → Bool
  | .obj r => decide (now - lastSeenTime r < 60000)
  | _ => false

/-- The snapshot with one visitor seen 30 s ago and one seen 90 s ago. -/
def samplePresence (now : Int) : JVal :=
  .obj [("p1", .obj [("lastSeen", .num (now - 30000))]),
        ("p2", .obj [("lastSeen", .num (now - 90000))])]

/-! ## A sample host -/

/-- A URL parser that accepts `http://host/...` and `https://host/...` and
rejects a string without such a scheme. -/
def sampleHostname (s : String) : Option String :=
  if "https://".data.isPrefixOf s.data then
    some (String.mk ((s.data.drop 8).takeWhile fun c => c ≠ '/'))
  else if "http://".data.isPrefixOf s.data then
    some (String.mk ((s.data.drop 7).takeWhile fun c => c ≠ '/'))
  else none

/-- A stand-in for the parsing of dates: a number is its own time value, and
a string stands for the number its digits spell, which orders the strings
`YYYY-MM-DDTHH:MM:SS.sssZ` as their instants are ordered; a string without a
digit, and any other value, is an invalid date. -/
def sampleDateValue : JVal → Option Int
  | .num n => some n
  | .str s =>
    if (s.data.filter Char.isDigit) ≠ [] then
      some ((s.data.filter Char.isDigit).foldl (fun n c => 10 * n + (c.toNat - 48)) 0 : Nat)
    else none
  | _ => none

/-- A host for evaluating the code on examples: its URL parser is
`sampleHostname`, its dates are read by `sampleDateValue` and the text of a
built-in function is `function name() { [native code] }`, the name of
`constructor` being `Object`; its coercion of strings and objects to numbers
gives `NaN`, its `+` on operands that are not numbers gives `undefined`, it
leaves a string with a non-ASCII character as it is and its `sort` leaves an
array whose comparator returns `NaN` as it is, and no example reaches any of
the four. -/
def sampleHost : Host where
  toNumber := fun _ => none
  toStr := fun v =>
    match v with
    | .undefined => "undefined"
    | .null => "null"
    | .bool true => "true"
    | .bool false => "false"
    | .num n => toString n
    | .str s => s
    | .obj _ => "[object Object]"
  toLowerCase := asciiLower
  hostname := sampleHostname
  plus := fun _ _ => .undefined
  capitalize := fun s => s
  dateValue := sampleDateValue
  functionText := fun k =>
    "function " ++ (if k = "constructor" then "Object" else k) ++ "() \x7b [native code] \x7d"
  engineSort := fun entries => entries

/-! ## Device chart (`renderDeviceChart`) -/

/-- A list of characters occurs in another as a contiguous run. -/
def occursIn (pat : List Char) : List Char → Bool
  | [] => pat.isEmpty
  | c :: cs => pat.isPrefixOf (c :: cs) || occursIn pat cs

/-- The test `/p1|p2|.../i.test(ua)` for patterns of lower-case ASCII letters:
one of them occurs in `ua`, the case of ASCII letters being ignored. -/
def testAnyCI (pats : List String) (ua : String) : Bool :=
  pats.any fun p => occursIn p.data (asciiLower ua).data

/-- `detectDevice(ua)`. -/
def detectDevice (ua : String) : String :=
  if testAnyCI ["mobile", "android", "iphone", "ipod"] ua then "Mobile"
  else if testAnyCI ["tablet", "ipad"] ua then "Tablet"
  else "Desktop"

/-- The expression `d.charAt(0).toUpperCase() + d.slice(1).toLowerCase()`: on a
string of ASCII characters the first is put in upper case and the others in
lower case; on any other string it is the host's. -/
def capitalize (H : Host) (d : String) : String :=
  if d.data.all (fun c => decide (c.toNat < 128)) = true then
    match d.data with
    | [] => ""
    | c :: cs => String.mk (c.toUpper :: cs.map Char.toLower)
  else H.capitalize d

/-- The label a session is counted under in `renderDeviceChart`:
`s.device || detectDevice(s.userAgent || '')`, capitalised; `none` when the
value has no method `charAt`. -/
def sessionDeviceLabel (H : Host) (s : JObj) : Option String :=
  match (prop s "device").or (.str (detectDevice (toStr H ((prop s "userAgent").or (.str ""))))) with
  | .str d => some (capitalize H d)
  | _ => none

/-- The label a page view is counted under in the fallback loop of
`renderDeviceChart`: `none` when it has no `device`, `some none` when the
value has no method `charAt`. -/
def pageViewDeviceLabel (H : Host) (pv : JObj) : Option (Option String) :=
  if (prop pv "device").truthy then
    match prop pv "device" with
    | .str d => some (some (capitalize H d))
    | _ => some none
  else none

/-- The table `devices` after the loop over the sessions; `none` when the loop
throws. -/
def sessionDevices (H : Host) (sessArr : List JObj) : Option JObj :=
  sessArr.foldlM (fun devices s =>
    (sessionDeviceLabel H s).map fun label => bump H devices label) []

/-- The table `devices` after the fallback loop over the page views; `none`
when the loop throws. -/
def pageViewDevices (H : Host) (devices : JObj) (pvArr : List JObj) : Option JObj :=
  pvArr.foldlM (fun devices pv =>
    match pageViewDeviceLabel H pv with
    | none => some devices
    | some none => none
    | some (some label) => some (bump H devices label)) devices

/-- The labels and values `renderDeviceChart(sessArr, pvArr)` hands to the
chart, paired; `pvArr` is `none` for a falsy argument; the result is `none`
when a loop throws.  The fallback loop runs when `Object.keys(devices)` is
empty, that is, when the first loop has created no property. -/
def renderDeviceChart (H : Host) (sessArr : List JObj) (pvArr : Option (List JObj)) :
    Option JObj :=
  (sessionDevices H sessArr).bind fun devices =>
    (match (objectEntries devices).length == 0, pvArr with
      | true, some pvs => pageViewDevices H devices pvs
      | _, _ => some devices).map fun devices =>
        if (objectEntries devices).length == 0 then [("No data", .num 1)]
        else objectEntries devices

/-! ### Notions used to state the properties of the device chart -/

/-- The label of a session whose `device` and `userAgent` are strings or
absent: its capitalised `device` when it has one, else the class
`detectDevice` gives its `userAgent` (the empty string when absent). -/
def deviceLabelOf (H : Host) (s : JObj) : String :=
  match prop s "device" with
  | .str d =>
    if d = "" then detectDevice (toStr H ((prop s "userAgent").or (.str "")))
    else capitalize H d
  | _ => detectDevice (toStr H ((prop s "userAgent").or (.str "")))

/-- The label of a page view whose `device` is a string or absent: its
capitalised `device`, when it has one. -/
def pageViewLabelOf (H : Host) (pv : JObj) : Option String :=
  match prop pv "device" with
  | .str d => if d = "" then none else some (capitalize H d)
  | _ => none

/-- Three sessions: an `iPhone` user agent, a `desktop` device field and a
user agent of neither class. -/
def sampleDeviceSessions : List JObj :=
  [[("userAgent", .str "Mozilla/5.0 (iPhone; CPU iPhone OS 17_0 like Mac OS X)")],
   [("device", .str "desktop"), ("userAgent", .str "Mozilla/5.0 (iPad)")],
   [("userAgent", .str "Mozilla/5.0 (X11; Linux x86_64)")]]

/-- One session, whose `device` is the text `__proto__`. -/
def sampleProtoDeviceSessions : List JObj := [[("device", .str "__proto__")]]

/-! ## Date keys (`localDateStr`, `getDateRange`) -/

/-- What `getFullYear()`, `getMonth()` and `getDate()` return for a `Date`: the
year, the month counted from 0 and the day of the month, in local time. -/
structure LocalDate where
  year : Nat
  month : Nat
  date : Nat
  deriving DecidableEq

/-- The method `s.padStart(2, '0')`. -/
def padStart2 (s : String) : String :=
  String.mk (List.replicate (2 - s.data.length) '0' ++ s.data)

/-- `localDateStr(d)`; `d` is `none` when the argument is left out, and `now`
is what `new Date()` then gives. -/
def localDateStr (now : LocalDate) (d : Option LocalDate) : String :=
  toString (d.getD now).year ++ "-" ++ padStart2 (toString ((d.getD now).month + 1)) ++ "-"
    ++ padStart2 (toString (d.getD now).date)

/-- The object `getDateRange` returns. -/
structure DateRange where
  startDate : String
  endDate : String
  deriving DecidableEq

/-- The value `days || analyticsDays`; `days` is `none` when the argument is
left out. -/
def rangeDays (analyticsDays : Int) (days : Option Int) : Int :=
  match days with
  | some n => if n ≠ 0 then n else analyticsDays
  | none => analyticsDays

/-- The date in `s` after `s.setDate(s.getDate() - (days - 1))`; `setDate d n`
is the date the built-in `d.setDate(n)` leaves in `d`. -/
def rangeStart (analyticsDays : Int) (today : LocalDate)
    (setDate : LocalDate → Int → LocalDate) (days : Option Int) : LocalDate :=
  setDate today (today.date - (rangeDays analyticsDays days - 1))

/-- `getDateRange(days)`; `analyticsDays` is the module variable and `today` is
what `new Date()` gives. -/
def getDateRange (analyticsDays : Int) (today : LocalDate)
    (setDate : LocalDate → Int → LocalDate) (days : Option Int) : DateRange :=
  { startDate := localDateStr today (some (rangeStart analyticsDays today setDate days))
    endDate := localDateStr today none }

/-! ### Notions used to state the properties of the date keys -/

/-- The comparison `a < b` of two strings: the lexicographic order of their
characters (of their code units, for characters of the Basic Multilingual
Plane). -/
def lexLt : List Char → List Char → Bool
  | _, [] => false
  | [], _ :: _ => true
  | a :: as, b :: bs => decide (a < b) || (a == b && lexLt as bs)

/-- The comparison `a <= b` of two strings, by which the store selects the keys
of a range. -/
def keyLe (a b : String) : Bool := !lexLt b.data a.data

/-- A calendar date with a year of four digits. -/
def isCalendarDate (d : LocalDate) : Bool :=
  decide (1000 ≤ d.year ∧ d.year ≤ 9999 ∧ d.month ≤ 11 ∧ 1 ≤ d.date ∧ d.date ≤ 31)

/-- The calendar day `a` is not later than the calendar day `b`. -/
def notLater (a b : LocalDate) : Prop :=
  a.year < b.year
    ∨ (a.year = b.year ∧ (a.month < b.month ∨ (a.month = b.month ∧ a.date ≤ b.date)))

/-- The ten characters `YYYY-MM-DD` of a date, month and day padded with a
zero to two digits. -/
def isoDigits (d : LocalDate) : List Char :=
  [Nat.digitChar (d.year / 1000), Nat.digitChar (d.year / 100 % 10),
    Nat.digitChar (d.year / 10 % 10), Nat.digitChar (d.year % 10), '-',
    Nat.digitChar ((d.month + 1) / 10), Nat.digitChar ((d.month + 1) % 10), '-',
    Nat.digitChar (d.date / 10), Nat.digitChar (d.date % 10)]

/-- A `setDate` for examples: it is exact as long as the day stays within the
month. -/
def sampleSetDate (d : LocalDate) (n : Int) : LocalDate := { d with date := n.toNat }

/-! ## Reporter state (`livePresenceRef`, the presence listeners, `analyticsCharts`) -/

/-- The state of the reporter: the module variables `livePresenceRef` and
`analyticsCharts`, the listeners the store holds for the presence path, and
the chart objects. -/
structure Reporter where
  /-- `livePresenceRef` holds a reference (is not `null`). -/
  livePresenceRef : Bool
  /-- The number of `value` listeners registered at `/site_analytics/presence`. -/
  listeners : Nat
  /-- The properties of `analyticsCharts`: a key and the number of its chart
  object. -/
  charts : List (String × Nat)
  /-- The number of chart objects constructed so far. -/
  constructed : Nat
  /-- The chart objects on which `destroy()` was called. -/
  destroyed : List Nat
  deriving DecidableEq

/-- The state when the script is loaded. -/
def Reporter.init : Reporter :=
  { livePresenceRef := false, listeners := 0, charts := [], constructed := 0, destroyed := [] }

/-- How the store answers inside the `try` block of `subscribeLiveVisitors`. -/
inductive SubscribeReply where
  /-- Both calls return. -/
  | registered
  /-- `firebase.database().ref(..)` throws. -/
  | refThrows
  /-- `livePresenceRef.on(..)` throws. -/
  | onThrows
  deriving DecidableEq

/-- `subscribeLiveVisitors()`, given the flag `firebaseReady` and the reply of
the store. -/
def subscribeLiveVisitors (firebaseReady : Bool) (reply : SubscribeReply) (s : Reporter) :
    Reporter :=
  if s.livePresenceRef || !firebaseReady then s
  else
    match reply with
    | .refThrows => s
    | .onThrows => { s with livePresenceRef := true }
    | .registered => { s with livePresenceRef := true, listeners := s.listeners + 1 }

/-- `cleanupAnalytics()`: `off()` removes the listeners of the path. -/
def cleanupAnalytics (s : Reporter) : Reporter :=
  { livePresenceRef := false
    listeners := if s.livePresenceRef then 0 else s.listeners
    charts := []
    constructed := s.constructed
    destroyed := s.destroyed ++ s.charts.map Prod.snd }

/-- The statements `if (analyticsCharts.k) analyticsCharts.k.destroy();
analyticsCharts.k = new Chart(..)` of a renderer. -/
def renderChart (k : String) (s : Reporter) : Reporter :=
  { s with
    charts :=
      if (s.charts.lookup k).isSome then
        s.charts.map fun e => if e.1 = k then (k, s.constructed) else e
      else s.charts ++ [(k, s.constructed)]
    constructed := s.constructed + 1
    destroyed :=
      match s.charts.lookup k with
      | some c => s.destroyed ++ [c]
      | none => s.destroyed }

/-- `refreshAnalytics()` run to its end: nothing when `firebaseReady` is false
at the call; else the charts of `rendered` are drawn (those among `sources`,
`device`, `traffic`, `funnel` whose canvas exists and whose renderer is
reached), and the `finally` block calls `subscribeLiveVisitors()`, for which
the flag is `readyAtEnd` and the store replies `reply`. -/
def refreshAnalytics (firebaseReady : Bool) (rendered : List String) (readyAtEnd : Bool)
    (reply : SubscribeReply) (s : Reporter) : Reporter :=
  if !firebaseReady then s
  else subscribeLiveVisitors readyAtEnd reply (rendered.foldl (fun s k => renderChart k s) s)

/-- A call of one of the three functions, with the replies it meets. -/
inductive ReporterCall where
  | refreshAnalytics (firebaseReady : Bool) (rendered : List String) (readyAtEnd : Bool)
      (reply : SubscribeReply)
  | subscribeLiveVisitors (firebaseReady : Bool) (reply : SubscribeReply)
  | cleanupAnalytics

/-- The state a call leaves. -/
def ReporterCall.run (s : Reporter) : ReporterCall → Reporter
  | .refreshAnalytics ready rendered readyAtEnd reply =>
    AnalyticsAdmin.refreshAnalytics ready rendered readyAtEnd reply s
  | .subscribeLiveVisitors ready reply => AnalyticsAdmin.subscribeLiveVisitors ready reply s
  | .cleanupAnalytics => AnalyticsAdmin.cleanupAnalytics s

/-- The state after a sequence of calls, from the initial state. -/
def runCalls (calls : List ReporterCall) : Reporter := calls.foldl ReporterCall.run Reporter.init

/-- The steps of which overlapping runs of `refreshAnalytics` are made: a
chart is drawn, the `finally` block subscribes, or one of the other two
functions is called. -/
inductive ReporterStep where
  | renderChart (k : String)
  | subscribeLiveVisitors (firebaseReady : Bool) (reply : SubscribeReply)
  | cleanupAnalytics

/-- The state a step leaves. -/
def ReporterStep.run (s : Reporter) : ReporterStep → Reporter
  | .renderChart k => AnalyticsAdmin.renderChart k s
  | .subscribeLiveVisitors ready reply => AnalyticsAdmin.subscribeLiveVisitors ready reply s
  | .cleanupAnalytics => AnalyticsAdmin.cleanupAnalytics s

/-! ### Notions used to state the properties of the reporter state -/

/-- The invariant of the reporter state: a listener is registered only while
`livePresenceRef` is held, and at most one is. -/
def Reporter.Inv (s : Reporter) : Prop :=
  s.listeners ≤ 1 ∧ (s.livePresenceRef = false → s.listeners = 0)

/-- Three rapid refreshes, a direct subscription, a teardown and a refresh. -/
def sampleCalls : List ReporterCall :=
  [.refreshAnalytics true ["sources", "device", "traffic", "funnel"] true .registered,
   .refreshAnalytics true ["sources", "device"] true .registered,
   .refreshAnalytics true ["sources", "device", "traffic", "funnel"] true .registered,
   .subscribeLiveVisitors true .registered,
   .cleanupAnalytics,
   .refreshAnalytics true ["sources"] true .registered]

/-! ## Booking manager (`bookings.js`) -/

/-- A call an operation of the booking manager makes to a collaborator: a
dialog, the store, the activity log, the mailer, the console, the page. The
HTML body and the footer of an email are not represented. -/
inductive Effect where
  | prompt (message : String)
  | confirm (message : String)
  | fbUpdate (path : String) (fields : JObj)
  | fbPush (path : String) (data : JObj)
  | fbRemove (path : String)
  | fbOnce (path : String)
  | logActivity (action : String) (message : String) (category : String)
  | sendBrandedEmail (recipient : JVal) (subject : String) (heading : String)
  | alert (message : String)
  | consoleError (label : String)
  | refreshBookings
  | switchTab (tab : String)
  deriving DecidableEq

/-- What the collaborators reply to an operation. -/
structure Replies where
  /-- The value of `prompt(..)`; `none` is `null`. -/
  prompt : Option String
  /-- The value of `confirm(..)`. -/
  confirm : Bool
  /-- The flag `firebaseReady`. -/
  firebaseReady : Bool
  /-- The value of `new Date().toISOString()`. -/
  now : String
  /-- The promise of `fbUpdate(..)` is fulfilled, not rejected. -/
  updateOk : Bool
  /-- The promise of `fbPush(..)` is fulfilled, not rejected. -/
  pushOk : Bool
  /-- The value of the snapshot `fbOnce(..)` gives; `none` when its promise is
  rejected. -/
  once : Option JVal
  /-- `typeof sendBrandedEmail === 'function'`. -/
  emailDefined : Bool
  /-- The `message` of the error a rejected promise or a failed call carries. -/
  errMessage : String

/-- The condition `booking && booking.email` on the value of a snapshot. -/
def hasEmail : JVal → Bool
  | .obj b => (prop b "email").truthy
  | _ => false

/-- The value `booking.email` of a snapshot value that is an object. -/
def emailOf : JVal → JVal
  | .obj b => prop b "email"
  | _ => .undefined

/-- `declineBooking(key)`: the calls it makes, in order. -/
def declineBooking (R : Replies) (key : String) : List Effect :=
  .prompt "Reason for declining (optional):" ::
    match R.prompt with
    | none => []
    | some reason =>
      .fbUpdate ("/trial_bookings/" ++ key)
          [("status", .str "declined"),
            ("decline_reason", .str (if reason ≠ "" then reason else "")),
            ("updated_at", .str R.now)] ::
        if R.updateOk then
          .logActivity "booking_declined" ("Declined trial booking: " ++ key) "booking" ::
            .fbOnce ("/trial_bookings/" ++ key) ::
              match R.once with
              | some booking =>
                (if hasEmail booking && R.emailDefined then
                    [.sendBrandedEmail (emailOf booking) "Booking Update - Sanz the Nanny"
                      "Booking Update"]
                  else [])
                  ++ [.refreshBookings]
              | none =>
                [.consoleError "Decline booking error:",
                  .alert ("Failed to decline booking: " ++ R.errMessage)]
        else
          [.consoleError "Decline booking error:",
            .alert ("Failed to decline booking: " ++ R.errMessage)]

/-- `cancelBooking(key)`: the calls it makes, in order. -/
def cancelBooking (R : Replies) (key : String) : List Effect :=
  .prompt "Reason for cancelling (optional):" ::
    match R.prompt with
    | none => []
    | some reason =>
      .fbUpdate ("/trial_bookings/" ++ key)
          [("status", .str "cancelled"),
            ("cancel_reason", .str (if reason ≠ "" then reason else "")),
            ("updated_at", .str R.now)] ::
        if R.updateOk then
          .logActivity "booking_cancelled" ("Cancelled trial booking: " ++ key) "booking" ::
            .fbOnce ("/trial_bookings/" ++ key) ::
              match R.once with
              | some booking =>
                (if hasEmail booking && R.emailDefined then
                    [.sendBrandedEmail (emailOf booking)
                      "Trial Session Cancelled - Sanz the Nanny" "Session Cancelled"]
                  else [])
                  ++ [.refreshBookings]
              | none =>
                [.consoleError "Cancel booking error:",
                  .alert ("Failed to cancel booking: " ++ R.errMessage)]
        else
          [.consoleError "Cancel booking error:",
            .alert ("Failed to cancel booking: " ++ R.errMessage)]

/-- The elements of a value that is an array: an object whose keys are the
indices `0`, `1`, ... in order (the store holds no empty object). -/
def asArray : JVal → Option (List JVal)
  | .obj ps =>
    if ps.map Prod.fst = (List.range ps.length).map toString then some (ps.map Prod.snd)
    else none
  | _ => none

/-- The array with the given elements. -/
def arrayOf (l : List JVal) : JVal := .obj (l.enum.map fun ic => (toString ic.1, ic.2))

/-- The elements of `b.children || []`; `none` when the value has no method
`map`. -/
def childrenOf (b : JObj) : Option (List JVal) :=
  if (prop b "children").truthy then asArray (prop b "children") else some []

/-- The object `convertToClient` builds for a child `c`; `none` when reading a
property of `c` throws. -/
def clientChild (c : JVal) : Option JObj :=
  (readProp c "name").bind fun name =>
    (readProp c "age").bind fun age =>
      (readProp c "allergies").bind fun allergies =>
        (readProp c "notes").map fun notes =>
          [("name", name.or (.str "")), ("age", age.or (.str "")),
            ("allergies", allergies.or (.str "")), ("notes", notes.or (.str ""))]

/-- The array `children` of `convertToClient`; `none` when building it
throws. -/
def clientChildren (booking : JObj) : Option (List JObj) :=
  (childrenOf booking).bind fun cs => cs.mapM clientChild

/-- The object `clientData` of `convertToClient`. -/
def clientData (H : Host) (now : String) (booking : JObj) (children : List JObj) : JObj :=
  [("family_name", (prop booking "parent_name").or (.str "")),
    ("parent_name", (prop booking "parent_name").or (.str "")),
    ("email", (prop booking "email").or (.str "")),
    ("phone", (prop booking "phone").or (.str "")),
    ("children", arrayOf (children.map JVal.obj)),
    ("notes", .str ("Converted from trial booking on "
      ++ toStr H ((prop booking "selected_date").or (.str "—"))
      ++ (if (prop booking "notes").truthy then ". Notes: " ++ toStr H (prop booking "notes")
          else ""))),
    ("status", .str "active"),
    ("source", .str "trial_booking"),
    ("created_at", .str now)]

/-- `convertToClient(bookingKey)` with the cache `bookingsCache`: the calls it
makes, in order. -/
def convertToClient (H : Host) (R : Replies) (bookingsCache : List JObj)
    (bookingKey : String) : List Effect :=
  match bookingsCache.find? fun b => decide (prop b "_key" = .str bookingKey) with
  | none => [.alert "Booking not found. Please refresh and try again."]
  | some booking =>
    if !R.firebaseReady then [.alert "Firebase not connected"]
    else
      .confirm ("Add \"" ++ toStr H ((prop booking "parent_name").or (.str "this family"))
          ++ "\" as a client?") ::
        if !R.confirm then []
        else
          match clientChildren booking with
          | none =>
            [.consoleError "[Bookings] Convert to client error:",
              .alert ("Failed to create client: " ++ R.errMessage)]
          | some children =>
            .fbPush "/clients" (clientData H R.now booking children) ::
              if !R.pushOk then
                [.consoleError "[Bookings] Convert to client error:",
                  .alert ("Failed to create client: " ++ R.errMessage)]
              else
                .fbUpdate ("/trial_bookings/" ++ bookingKey)
                    [("status", .str "accepted"), ("converted_to_client", .bool true),
                      ("updated_at", .str R.now)] ::
                  if !R.updateOk then
                    [.consoleError "[Bookings] Convert to client error:",
                      .alert ("Failed to create client: " ++ R.errMessage)]
                  else
                    [.logActivity "client_created"
                        ("Created client from trial booking: "
                          ++ toStr H ((prop booking "parent_name").or (.str "")))
                        "client",
                      .alert ("✅ " ++ toStr H ((prop booking "parent_name").or (.str "Family"))
                        ++ " has been added as a client!"),
                      .switchTab "clients"]

/-! ### Notions used to state the properties of the booking operations -/

/-- A call that writes to the store. -/
def Effect.isWrite : Effect → Bool
  | .fbUpdate _ _ => true
  | .fbPush _ _ => true
  | .fbRemove _ => true
  | _ => false

/-- A call that adds an entry to the activity log. -/
def Effect.isLog : Effect → Bool
  | .logActivity _ _ _ => true
  | _ => false

/-- A call that sends an email. -/
def Effect.isEmail : Effect → Bool
  | .sendBrandedEmail _ _ _ => true
  | _ => false

/-- Replies of a store that accepts every write, and of a user who enters an
empty reason and confirms. -/
def sampleReplies : Replies :=
  { prompt := some "", confirm := true, firebaseReady := true,
    now := "2024-05-10T09:30:00.000Z", updateOk := true, pushOk := true,
    once := some (.obj [("parent_name", .str "Ana"), ("email", .str "a@x.com"),
      ("status", .str "declined")]),
    emailDefined := true, errMessage := "PERMISSION_DENIED" }

/-- The booking of Ana, with one child. -/
def sampleBooking : JObj :=
  [("_key", .str "-b1"), ("parent_name", .str "Ana"), ("email", .str "a@x.com"),
    ("children", arrayOf [.obj [("name", .str "Lea"), ("age", .num 4)]])]

/-- A booking with a child in the first year of life. -/
def sampleInfantBooking : JObj :=
  [("_key", .str "-b2"), ("parent_name", .str "Eva"),
    ("children", arrayOf [.obj [("name", .str "Tom"), ("age", .num 0)]])]

/-- The record `convertToClient` makes of a child that is an object. -/
def convertedChild (c : JObj) : JObj :=
  [("name", (prop c "name").or (.str "")), ("age", (prop c "age").or (.str "")),
    ("allergies", (prop c "allergies").or (.str "")), ("notes", (prop c "notes").or (.str ""))]

/-- Replies like `sampleReplies`, of a store that rejects the update. -/
def sampleRejectedReplies : Replies := { sampleReplies with updateOk := false }

/-! ## Listing the bookings (`refreshBookings`) -/

/-- The element `{ _key: k, ...v }` that `refreshBookings` puts into
`bookingsCache` for the entry `[k, v]` of the fetched value. -/
def cacheEntry (k : String) (v : JVal) : JObj :=
  match v with
  | .obj ps => ps.foldl (fun o p => setProp o p.1 p.2) [("_key", .str k)]
  | .str s => charEntries s ++ [("_key", .str k)]
  | _ => [("_key", .str k)]

/-- The comparator `(a, b) => new Date(b.created_at) - new Date(a.created_at)`
does not ask for `b` before `a`: its value is negative, zero or `NaN`. -/
def keepsOrder (H : Host) (a b : JObj) : Bool :=
  match H.dateValue (prop b "created_at"), H.dateValue (prop a "created_at") with
  | some tb, some ta => decide (tb - ta ≤ 0)
  | _, _ => true

/-- The array `bookingsCache` after `refreshBookings` has filled and sorted it.
The sort of an array is stable; when every date is valid this is the array it
produces, and when a date is invalid (the comparator gives `NaN`) the order an
engine produces is its own choice, of which this is one. -/
def sortedBookings (H : Host) (data : JVal) : List JObj :=
  ((entriesOrEmpty data).map fun e => cacheEntry e.1 e.2).insertionSort
    fun a b => keepsOrder H a b = true

/-- A card of the list: the booking it shows, the class of its badge and the
functions its buttons call. -/
structure Card where
  booking : JObj
  badgeCls : String
  actions : List String
  deriving DecidableEq

/-- The class of the badge of a booking. -/
def badgeOf (b : JObj) : String :=
  if prop b "status" = .str "pending" then "badge-pending"
  else if prop b "status" = .str "accepted" then "badge-accepted"
  else "badge-declined"

/-- The functions the buttons of a booking call, by its status. -/
def actionsOf (b : JObj) : List String :=
  if prop b "status" = .str "pending" then ["acceptBooking", "declineBooking", "convertToClient"]
  else if prop b "status" = .str "accepted" then ["convertToClient", "cancelBooking"]
  else if prop b "status" = .str "declined" ∨ prop b "status" = .str "cancelled" then
    ["deleteBooking"]
  else []

/-- The card the loop builds for a booking; `none` when building the text of
its children throws (`b.children` has no method `map`, or a child is `null`). -/
def cardOf (b : JObj) : Option Card :=
  (childrenOf b).bind fun cs =>
    (cs.mapM fun c => readProp c "name").map fun _ =>
      { booking := b, badgeCls := badgeOf b, actions := actionsOf b }

/-- What `refreshBookings` leaves in the element `bookings-list`. -/
inductive BookingsView where
  /-- The text `Firebase not connected`. -/
  | notConnected
  /-- The text `Error loading bookings`. -/
  | error
  /-- The empty state, with its text. -/
  | empty (text : String)
  /-- The cards, in order. -/
  | cards (cs : List Card)
  deriving DecidableEq

/-- The value `filter || 'all'`; `filter` is `none` when the argument is left
out. -/
def filterOrAll (filter : Option String) : String :=
  match filter with
  | some f => if f ≠ "" then f else "all"
  | none => "all"

/-- The array `filtered` of `refreshBookings`, for the value `f` of `filter`. -/
def filteredBookings (H : Host) (data : JVal) (f : String) : List JObj :=
  if f ≠ "all" then (sortedBookings H data).filter fun b => decide (prop b "status" = .str f)
  else sortedBookings H data

/-- `refreshBookings(filter)`; `fetched` is the value of the snapshot of
`/trial_bookings/`, `none` when the promise of `fbOnce` is rejected. -/
def refreshBookings (H : Host) (firebaseReady : Bool) (fetched : Option JVal)
    (filter : Option String) : BookingsView :=
  if !firebaseReady then .notConnected
  else
    match fetched with
    | none => .error
    | some data =>
      if (filteredBookings H data (filterOrAll filter)).length = 0 then
        .empty ("No "
          ++ (if filterOrAll filter = "all" then "" else filterOrAll filter ++ " ")
          ++ "bookings found")
      else
        match (filteredBookings H data (filterOrAll filter)).mapM cardOf with
        | none => .error
        | some cs => .cards cs

/-! ### Notions used to state the properties of the listing -/

/-- The bookings of the cards a view shows. -/
def BookingsView.bookings : BookingsView → List JObj
  | .cards cs => cs.map Card.booking
  | _ => []

/-- The time a booking was created, when its `created_at` is a valid date. -/
def createdAt (H : Host) (b : JObj) : Int := (H.dateValue (prop b "created_at")).getD 0

/-- A booking record: its `created_at` is a valid date and its `children` are
absent or a list without `null`. -/
def isBookingRecord (H : Host) (b : JObj) : Bool :=
  (H.dateValue (prop b "created_at")).isSome && (cardOf b).isSome

/-- A list is another sorted in descending order of `key` by a stable sort: it
has the same elements, its keys do not increase, and elements of equal key
keep the order they had. -/
def IsStableSortDesc {α : Type} (key : α → Int) (l sorted : List α) : Prop :=
  sorted.Perm l
  ∧ sorted.Pairwise (fun a b => key b ≤ key a)
  ∧ ∀ t : Int, (sorted.filter fun a => decide (key a = t)) = l.filter fun a => decide (key a = t)

/-- Four bookings as the store returns them, in the order of their keys. -/
def sampleBookingsData : JVal :=
  .obj [("-b1", .obj [("parent_name", .str "Ana"), ("status", .str "pending"),
          ("created_at", .str "2024-05-02T08:00:00.000Z")]),
        ("-b2", .obj [("parent_name", .str "Eva"), ("status", .str "accepted"),
          ("created_at", .str "2024-05-04T08:00:00.000Z")]),
        ("-b3", .obj [("parent_name", .str "Ida"), ("status", .str "pending"),
          ("created_at", .str "2024-05-03T08:00:00.000Z")]),
        ("-b4", .obj [("parent_name", .str "Uma"), ("status", .str "pending"),
          ("created_at", .str "2024-05-03T08:00:00.000Z")])]

/-! ## Lemmas on property reads and writes -/

theorem prop_setProp_same (o : JObj) (k : String) (v : JVal) :
    prop (setProp o k v) k = v := by
  induction o with
  | nil => simp [setProp, prop, List.lookup]
  | cons p ps ih =>
    obtain ⟨k', v'⟩ := p
    by_cases h : k' = k
    · subst h; simp [setProp, prop, List.lookup]
    · have hb : (k == k') = false := by simpa using fun e : k = k' => h e.symm
      simp only [setProp, h, if_false]
      simp only [prop, List.lookup, hb] at ih ⊢
      exact ih

theorem prop_setProp_other (o : JObj) (k j : String) (v : JVal) (hne : j ≠ k) :
    prop (setProp o k v) j = prop o j := by
  induction o with
  | nil =>
    have hb : (j == k) = false := by simpa using hne
    simp [setProp, prop, List.lookup, hb]
  | cons p ps ih =>
    obtain ⟨k', v'⟩ := p
    by_cases h : k' = k
    · subst h
      have hb : (j == k') = false := by simpa using hne
      simp [setProp, prop, List.lookup, hb]
    · simp only [setProp, h, if_false]
      simp only [prop, List.lookup] at ih ⊢
      cases hjk : (j == k') with
      | true => rfl
      | false => exact ih

/-! ## Lemmas on the flatteners -/

theorem foldl_push_eq {α γ : Type} (g : α → List γ) (l : List α) (acc : List γ) :
    l.foldl (fun arr x => arr ++ g x) acc = acc ++ l.flatMap g := by
  induction l generalizing acc with
  | nil => simp
  | cons x xs ih => simp [List.foldl_cons, ih, List.flatMap_cons, List.append_assoc]


theorem filterMap_flatMap_eq {α β γ : Type} (f : α → List β) (g : β → Option γ)
    (l : List α) :
    (l.flatMap f).filterMap g = l.flatMap fun x => (f x).filterMap g := by
  induction l with
  | nil => rfl
  | cons x xs ih => simp [List.flatMap_cons, List.filterMap_append, ih]

theorem pageView_inner_fold (d s : String) (es : List (String × JVal)) (arr : List JObj) :
    es.foldl (fun arr e =>
        match e.2 with
        | .obj pv =>
          if (prop pv "timestamp").truthy then
            arr ++ [setProp (setProp pv "_slug" (.str s)) "_date" (.str d)]
          else arr
        | _ => arr) arr
      = arr ++ (es.map fun e => (d, s, e.2)).filterMap tagPageView := by
  induction es generalizing arr with
  | nil => simp
  | cons e es ih =>
    obtain ⟨k, v⟩ := e
    rw [List.foldl_cons, ih]
    cases v with
    | obj pv =>
      by_cases ht : (prop pv "timestamp").truthy = true
      · simp [tagPageView, ht, List.filterMap_cons]
      · simp [tagPageView, ht, List.filterMap_cons]
    | _ => simp [tagPageView, List.filterMap_cons]

theorem flattenRangePageViews_eq (raw : JVal) :
    flattenRangePageViews raw = (pageViewLeaves raw).filterMap tagPageView := by
  unfold flattenRangePageViews pageViewLeaves
  have hmid : ∀ (d : String) (v : JVal) (arr : List JObj),
      (entriesOrEmpty v).foldl (fun arr se =>
        match se.2 with
        | .obj entries =>
          entries.foldl (fun arr e =>
            match e.2 with
            | .obj pv =>
              if (prop pv "timestamp").truthy then
                arr ++ [setProp (setProp pv "_slug" (.str se.1)) "_date" (.str d)]
              else arr
            | _ => arr) arr
        | _ => arr) arr
      = arr ++ ((entriesOrEmpty v).flatMap fun se =>
          match se.2 with
          | .obj entries => entries.map fun e => (d, se.1, e.2)
          | _ => []).filterMap tagPageView := by
    intro d v arr
    rw [filterMap_flatMap_eq, ← foldl_push_eq]
    congr 1
    funext arr se
    obtain ⟨s, x⟩ := se
    cases x <;> simp [pageView_inner_fold]
  rw [filterMap_flatMap_eq, ← List.nil_append (List.flatMap _ _), ← foldl_push_eq]
  congr 1
  funext arr ds
  rw [hmid]

theorem session_inner_fold (d : String) (es : List (String × JVal)) (arr : List JObj) :
    es.foldl (fun arr e =>
        match e.2 with
        | .obj s => arr ++ [setProp s "_date" (.str d)]
        | _ => arr) arr
      = arr ++ (es.map fun e => (d, e.2)).filterMap tagSession := by
  induction es generalizing arr with
  | nil => simp
  | cons e es ih =>
    obtain ⟨k, v⟩ := e
    rw [List.foldl_cons, ih]
    cases v <;> simp [tagSession, List.filterMap_cons]

theorem flattenRangeSessions_eq (raw : JVal) :
    flattenRangeSessions raw = (sessionLeaves raw).filterMap tagSession := by
  unfold flattenRangeSessions sessionLeaves
  rw [filterMap_flatMap_eq, ← List.nil_append (List.flatMap _ _), ← foldl_push_eq]
  congr 1
  funext arr ds
  rw [session_inner_fold]

theorem length_filterMap_tagPageView (l : List (String × String × JVal)) :
    (l.filterMap tagPageView).length = (l.filter fun x => hasTimestamp x.2.2).length := by
  induction l with
  | nil => rfl
  | cons x xs ih =>
    obtain ⟨d, s, v⟩ := x
    cases v with
    | obj pv =>
      by_cases ht : (prop pv "timestamp").truthy = true
      · simp [tagPageView, hasTimestamp, ht, List.filterMap_cons, List.filter_cons, ih]
      · simp [tagPageView, hasTimestamp, ht, List.filterMap_cons, List.filter_cons, ih]
    | _ => simp [tagPageView, hasTimestamp, List.filterMap_cons, List.filter_cons, ih]

theorem length_filter_add_not {α : Type} (p : α → Bool) (l : List α) :
    (l.filter p).length + (l.filter fun x => !p x).length = l.length := by
  induction l with
  | nil => rfl
  | cons x xs ih =>
    cases h : p x <;> simp [List.filter_cons, h] <;> omega


theorem length_filterMap_tagSession (l : List (String × JVal)) :
    (l.filterMap tagSession).length = (l.filter fun x => isObject x.2).length := by
  induction l with
  | nil => rfl
  | cons x xs ih =>
    obtain ⟨d, v⟩ := x
    cases v <;> simp [tagSession, isObject, List.filterMap_cons, List.filter_cons, ih]

theorem tagPageView_some {l : String × String × JVal} {r : JObj}
    (h : tagPageView l = some r) :
    ∃ pv, l.2.2 = .obj pv ∧ (prop pv "timestamp").truthy = true
      ∧ r = setProp (setProp pv "_slug" (.str l.2.1)) "_date" (.str l.1) := by
  obtain ⟨d, s, v⟩ := l
  cases v with
  | obj pv =>
    by_cases ht : (prop pv "timestamp").truthy = true
    · simp [tagPageView, ht] at h
      exact ⟨pv, rfl, ht, h.symm⟩
    · simp [tagPageView, ht] at h
  | _ => simp [tagPageView] at h

/-- Claim C1. For every range-query result `raw` with `N` leaf records,
`flattenRangePageViews raw` has exactly `N - dropped` records, `dropped` being
the number of leaves without a timestamp (a leaf that is not a record, or whose
`timestamp` is not set to a truthy value, which is the test the code applies).
Every returned record is a leaf of `raw` that has a timestamp, carrying the date
key and the slug key it was stored under as `_date` and `_slug`, all its other
properties unchanged. -/
theorem C1_flatten_pageviews_count (raw : JVal) :
    (flattenRangePageViews raw).length
        = (pageViewLeaves raw).length
          - ((pageViewLeaves raw).filter fun l => !hasTimestamp l.2.2).length
    ∧ (flattenRangePageViews raw).length
        + ((pageViewLeaves raw).filter fun l => !hasTimestamp l.2.2).length
        = (pageViewLeaves raw).length
    ∧ ∀ r ∈ flattenRangePageViews raw,
        ∃ date slug pv, (date, slug, JVal.obj pv) ∈ pageViewLeaves raw
          ∧ hasTimestamp (.obj pv) = true
          ∧ r = setProp (setProp pv "_slug" (.str slug)) "_date" (.str date)
          ∧ prop r "_date" = .str date
          ∧ prop r "_slug" = .str slug
          ∧ ∀ k, k ≠ "_date" → k ≠ "_slug" → prop r k = prop pv k := by
  have hlen := length_filterMap_tagPageView (pageViewLeaves raw)
  have hsplit := length_filter_add_not (fun l : String × String × JVal => hasTimestamp l.2.2)
    (pageViewLeaves raw)
  rw [flattenRangePageViews_eq]
  refine ⟨by omega, by omega, ?_⟩
  intro r hr
  obtain ⟨l, hl, hlr⟩ := List.mem_filterMap.mp hr
  obtain ⟨pv, hpv, ht, rfl⟩ := tagPageView_some hlr
  obtain ⟨d, s, v⟩ := l
  simp only at hpv
  subst hpv
  refine ⟨d, s, pv, hl, ht, rfl, prop_setProp_same _ _ _, ?_, ?_⟩
  · rw [prop_setProp_other _ _ _ _ (by decide), prop_setProp_same]
  · intro k hk1 hk2
    rw [prop_setProp_other _ _ _ _ hk1, prop_setProp_other _ _ _ _ hk2]

/-- The sample tree has three leaves, one without a timestamp, and flattens to
two tagged records. -/
theorem flattenRangePageViews_sample :
    (pageViewLeaves samplePageViews).length = 3
    ∧ flattenRangePageViews samplePageViews =
      [[("timestamp", .num 1714550000000), ("visitorId", .str "v1"),
          ("_slug", .str "home"), ("_date", .str "2024-05-01")],
        [("timestamp", .num 1714640000000),
          ("_slug", .str "about"), ("_date", .str "2024-05-02")]] := by
  decide

/-- Claim C2, as stated, fails: `flattenRangeSessions` returns the one session of
the sample tree, and that record has no timestamp. -/
theorem C2_sessions_without_timestamp_kept :
    flattenRangeSessions sampleSessions =
        [[("duration", .num 30), ("pages", .num 2), ("_date", .str "2024-05-01")]]
    ∧ hasTimestamp
        (.obj [("duration", .num 30), ("pages", .num 2), ("_date", .str "2024-05-01")]) = false
    ∧ ¬ (∀ raw : JVal,
          (∀ r ∈ flattenRangePageViews raw, hasTimestamp (.obj r) = true)
          ∧ (∀ r ∈ flattenRangeSessions raw, hasTimestamp (.obj r) = true)) := by
  refine ⟨by decide, by decide, ?_⟩
  intro h
  have h2 := (h sampleSessions).2
    [("duration", .num 30), ("pages", .num 2), ("_date", .str "2024-05-01")] (by decide)
  exact absurd h2 (by decide)

/-- Claim C2, amended. `flattenRangePageViews` never returns a record without a
timestamp. `flattenRangeSessions` applies no timestamp test: it returns every
session record of the result (every object stored under a date), tagged with
its date, whether or not the record has a timestamp. -/
theorem C2_flatteners_timestamp (raw : JVal) :
    (∀ r ∈ flattenRangePageViews raw, hasTimestamp (.obj r) = true)
    ∧ flattenRangeSessions raw = (sessionLeaves raw).filterMap tagSession
    ∧ (flattenRangeSessions raw).length
        = ((sessionLeaves raw).filter fun l => isObject l.2).length := by
  refine ⟨?_, flattenRangeSessions_eq raw, ?_⟩
  · intro r hr
    rw [flattenRangePageViews_eq] at hr
    obtain ⟨l, _, hlr⟩ := List.mem_filterMap.mp hr
    obtain ⟨pv, _, ht, rfl⟩ := tagPageView_some hlr
    simp only [hasTimestamp]
    rw [prop_setProp_other _ _ _ _ (by decide), prop_setProp_other _ _ _ _ (by decide)]
    exact ht
  · rw [flattenRangeSessions_eq, length_filterMap_tagSession]

/-! ## Unique visitors -/

theorem visitors_eq_foldl (pvArr : List JObj) (vs : List JVal) :
    pvArr.foldl (fun vs pv =>
        if (prop pv "visitorId").truthy then setAdd vs (prop pv "visitorId")
        else if (prop pv "sessionId").truthy then setAdd vs (prop pv "sessionId")
        else vs) vs
      = (pvArr.filterMap visitorKey).foldl setAdd vs := by
  induction pvArr generalizing vs with
  | nil => rfl
  | cons pv pvs ih =>
    rw [List.foldl_cons, ih]
    by_cases h1 : (prop pv "visitorId").truthy = true
    · simp [visitorKey, h1, List.filterMap_cons]
    · by_cases h2 : (prop pv "sessionId").truthy = true
      · simp [visitorKey, h1, h2, List.filterMap_cons]
      · simp [visitorKey, h1, h2, List.filterMap_cons]

theorem foldl_setAdd_spec (ids vs : List JVal) (hvs : vs.Nodup) :
    (ids.foldl setAdd vs).Nodup
      ∧ (ids.foldl setAdd vs).toFinset = vs.toFinset ∪ ids.toFinset := by
  induction ids generalizing vs with
  | nil => simp [hvs]
  | cons v ids ih =>
    rw [List.foldl_cons]
    by_cases hv : v ∈ vs
    · have hs : setAdd vs v = vs := by simp [setAdd, hv]
      rw [hs]
      obtain ⟨h1, h2⟩ := ih vs hvs
      refine ⟨h1, ?_⟩
      rw [h2]
      ext x
      simp only [List.toFinset_cons, Finset.mem_union, Finset.mem_insert, List.mem_toFinset]
      constructor
      · rintro (h | h)
        · exact Or.inl h
        · exact Or.inr (Or.inr h)
      · rintro (h | h | h)
        · exact Or.inl h
        · exact Or.inl (h ▸ hv)
        · exact Or.inr h
    · have hs : setAdd vs v = vs ++ [v] := by simp [setAdd, hv]
      rw [hs]
      have hnd : (vs ++ [v]).Nodup := by
        rw [List.nodup_append]
        refine ⟨hvs, List.nodup_singleton v, ?_⟩
        intro a ha hb
        rw [List.mem_singleton] at hb
        exact hv (hb ▸ ha)
      obtain ⟨h1, h2⟩ := ih (vs ++ [v]) hnd
      refine ⟨h1, ?_⟩
      rw [h2]
      ext x
      simp only [List.toFinset_append, List.toFinset_cons, List.toFinset_nil, Finset.mem_union,
        Finset.mem_insert, List.mem_toFinset, Finset.not_mem_empty, or_false]
      tauto

theorem visitors_spec (pvArr : List JObj) :
    (visitors pvArr).Nodup
      ∧ (visitors pvArr).toFinset = (pvArr.filterMap visitorKey).toFinset := by
  unfold visitors
  rw [visitors_eq_foldl]
  have h := foldl_setAdd_spec (pvArr.filterMap visitorKey) [] List.nodup_nil
  simpa using h

/-- Claim C3. For every list of page-view records, the unique-visitor count of
`renderKPIs` is the size of the set of identifiers `visitorId`-else-`sessionId`
taken over the records that have one of the two (a property has a value when it
is truthy, the test the code applies), and it is at most the number of page
views. -/
theorem C3_unique_visitors (pvArr : List JObj) :
    uniqueVisitors pvArr = (pvArr.filterMap visitorKey).toFinset.card
    ∧ uniqueVisitors pvArr ≤ pvArr.length := by
  obtain ⟨hnd, hset⟩ := visitors_spec pvArr
  have hcard : uniqueVisitors pvArr = (pvArr.filterMap visitorKey).toFinset.card := by
    unfold uniqueVisitors
    rw [← hset, List.toFinset_card_of_nodup hnd]
  refine ⟨hcard, ?_⟩
  rw [hcard]
  exact (List.toFinset_card_le _).trans (List.length_filterMap_le _ _)

/-- Four page views of two visitors: one counted by `visitorId`, the same one
again by `sessionId`, a second by `sessionId`, and a view with no identifier. -/
theorem uniqueVisitors_sample :
    uniqueVisitors [[("visitorId", .str "a")], [("sessionId", .str "a")],
      [("visitorId", .str ""), ("sessionId", .str "b")], []] = 2 := by
  decide

/-! ## Rounding, bounce rate and average duration -/

theorem mathRoundDiv_eq_floor (a : Int) (b : Nat) (hb : 0 < b) :
    mathRoundDiv a b = ⌊(a : ℚ) / b + 1 / 2⌋ := by
  unfold mathRoundDiv
  have hb' : (b : ℚ) ≠ 0 := by exact_mod_cast hb.ne'
  have h : (a : ℚ) / b + 1 / 2 = ((2 * a + b : ℤ) : ℚ) / ((2 * b : ℕ) : ℚ) := by
    push_cast
    field_simp
    ring
  rw [h, Rat.floor_intCast_div_natCast]
  push_cast
  rfl

theorem roundedMean_eq_floor (ds : List Int) (h : ds ≠ []) :
    roundedMean ds = ⌊(ds.sum : ℚ) / ds.length + 1 / 2⌋ := by
  have hl : 0 < ds.length := List.length_pos.mpr h
  unfold roundedMean
  rw [if_pos (by omega), mathRoundDiv_eq_floor _ _ hl]

theorem bounces_le (H : Host) (sessArr : List JObj) : bounces H sessArr ≤ sessArr.length :=
  List.length_filter_le _ _

theorem isBounce_numeric (H : Host) (s : JObj)
    (hp : numOrAbsent (prop s "pages") = true) (hd : numOrAbsent (prop s "duration") = true) :
    isBounce H s
      = decide (numOr (prop s "pages") 1 ≤ 1 ∨ numOr (prop s "duration") 0 < 10) := by
  unfold isBounce
  have e1 : jsLe H ((prop s "pages").or (.num 1)) 1 = decide (numOr (prop s "pages") 1 ≤ 1) := by
    cases hv : prop s "pages" with
    | undefined => simp [JVal.or, JVal.truthy, jsLe, toNumber, numOr]
    | num n =>
      by_cases hn : n = 0
      · subst hn; simp [JVal.or, JVal.truthy, jsLe, toNumber, numOr]
      · simp [JVal.or, JVal.truthy, jsLe, toNumber, numOr, hn]
    | _ => rw [hv] at hp; simp [numOrAbsent] at hp
  have e2 : jsLt H ((prop s "duration").or (.num 0)) 10
      = decide (numOr (prop s "duration") 0 < 10) := by
    cases hv : prop s "duration" with
    | undefined => simp [JVal.or, JVal.truthy, jsLt, toNumber, numOr]
    | num n =>
      by_cases hn : n = 0
      · subst hn; simp [JVal.or, JVal.truthy, jsLt, toNumber, numOr]
      · simp [JVal.or, JVal.truthy, jsLt, toNumber, numOr, hn]
    | _ => rw [hv] at hd; simp [numOrAbsent] at hd
  rw [e1, e2, Bool.decide_or]

/-! ### Rounding to a double -/

theorem roundHalfEven_err (q : ℚ) : |(roundHalfEven q : ℚ) - q| ≤ 1 / 2 := by
  have h1 := Int.floor_le q
  have h2 := Int.lt_floor_add_one q
  unfold roundHalfEven
  rw [abs_le]
  split_ifs with a b c
  · constructor <;> linarith
  · push_cast; constructor <;> linarith
  · constructor <;> linarith
  · push_cast; constructor <;> linarith

theorem roundHalfEven_le (q : ℚ) (M : ℤ) (h : q ≤ M) : roundHalfEven q ≤ M := by
  have h1 := Int.floor_le q
  have hf : ⌊q⌋ ≤ M := Int.cast_le.mp (h1.trans h)
  have hlt : ¬ q - ⌊q⌋ < 1 / 2 → ⌊q⌋ + 1 ≤ M := by
    intro hn
    have : (⌊q⌋ : ℚ) < M := by linarith
    exact Int.add_one_le_iff.mpr (Int.cast_lt.mp this)
  unfold roundHalfEven
  split_ifs with a b c
  · exact hf
  · exact hlt a
  · exact hf
  · exact hlt a

theorem le_roundHalfEven (q : ℚ) (M : ℤ) (h : (M : ℚ) ≤ q) : M ≤ roundHalfEven q := by
  have hf : M ≤ ⌊q⌋ := Int.le_floor.mpr h
  unfold roundHalfEven
  split_ifs <;> omega

theorem roundHalfEven_eq (q : ℚ) (m : ℤ) (h : |q - m| < 1 / 2) : roundHalfEven q = m := by
  rw [abs_lt] at h
  have h1 := Int.floor_le q
  have h2 := Int.lt_floor_add_one q
  have l1 : ((⌊q⌋ : ℤ) : ℚ) < ((m + 1 : ℤ) : ℚ) := by push_cast; linarith [h.1, h.2]
  have l2 : ((m : ℤ) : ℚ) < ((⌊q⌋ + 2 : ℤ) : ℚ) := by push_cast; linarith [h.1, h.2]
  have l1' := Int.cast_lt.mp l1
  have l2' := Int.cast_lt.mp l2
  unfold roundHalfEven
  split_ifs with a b c
  · have l3 : ((m : ℤ) : ℚ) < ((⌊q⌋ + 1 : ℤ) : ℚ) := by push_cast; linarith [h.1, h.2]
    have l3' := Int.cast_lt.mp l3
    omega
  · have l3 : ((⌊q⌋ : ℤ) : ℚ) < ((m : ℤ) : ℚ) := by linarith [h.1, h.2]
    have l3' := Int.cast_lt.mp l3
    omega
  · exfalso
    have l3 : ((⌊q⌋ : ℤ) : ℚ) < ((m : ℤ) : ℚ) := by linarith [h.1, h.2, not_lt.mp a]
    have l4 : ((m : ℤ) : ℚ) < ((⌊q⌋ + 1 : ℤ) : ℚ) := by
      push_cast; linarith [h.1, h.2, not_lt.mp b]
    have l3' := Int.cast_lt.mp l3
    have l4' := Int.cast_lt.mp l4
    omega
  · exfalso
    have l3 : ((⌊q⌋ : ℤ) : ℚ) < ((m : ℤ) : ℚ) := by linarith [h.1, h.2, not_lt.mp a]
    have l4 : ((m : ℤ) : ℚ) < ((⌊q⌋ + 1 : ℤ) : ℚ) := by
      push_cast; linarith [h.1, h.2, not_lt.mp b]
    have l3' := Int.cast_lt.mp l3
    have l4' := Int.cast_lt.mp l4
    omega

theorem roundDouble_zero : roundDouble 0 = 0 := by simp [roundDouble]

theorem roundDouble_pos_eq (x : ℚ) (hx : 0 < x) :
    roundDouble x
      = roundHalfEven (x / 2 ^ (Int.log 2 x - 52)) * 2 ^ (Int.log 2 x - 52) := by
  unfold roundDouble
  rw [if_neg hx.ne', abs_of_pos hx]

theorem log_two_bounds (x : ℚ) (hx : 0 < x) :
    (2 : ℚ) ^ Int.log 2 x ≤ x ∧ x < (2 : ℚ) ^ (Int.log 2 x + 1) := by
  have h1 := Int.zpow_log_le_self (b := 2) (by norm_num) hx
  have h2 := Int.lt_zpow_succ_log_self (b := 2) (by norm_num) x
  simpa using And.intro h1 h2

theorem log_two_lt (x : ℚ) (k : ℤ) (hx : 0 < x) (h : x < 2 ^ k) : Int.log 2 x < k := by
  have := (Int.lt_zpow_iff_log_lt (b := 2) (by norm_num) (x := k) hx).mp (by simpa using h)
  exact this

theorem log_two_eq (x : ℚ) (e : ℤ) (h1 : 2 ^ e ≤ x) (h2 : x < 2 ^ (e + 1)) :
    Int.log 2 x = e := by
  have hx : 0 < x := lt_of_lt_of_le (zpow_pos (by norm_num) e) h1
  have a := log_two_lt x (e + 1) hx h2
  have b := (Int.zpow_le_iff_le_log (b := 2) (by norm_num) (x := e) hx).mp (by simpa using h1)
  omega

theorem roundDouble_nonneg (x : ℚ) (hx : 0 ≤ x) : 0 ≤ roundDouble x := by
  rcases hx.eq_or_lt with h | h
  · rw [← h, roundDouble_zero]
  · rw [roundDouble_pos_eq x h]
    have hu : (0 : ℚ) < 2 ^ (Int.log 2 x - 52) := zpow_pos (by norm_num) _
    have : (0 : ℤ) ≤ roundHalfEven (x / 2 ^ (Int.log 2 x - 52)) :=
      le_roundHalfEven _ 0 (by simpa using (div_pos h hu).le)
    have h' : (0 : ℚ) ≤ (roundHalfEven (x / 2 ^ (Int.log 2 x - 52)) : ℚ) := by exact_mod_cast this
    exact mul_nonneg h' hu.le

theorem roundDouble_err (x : ℚ) (k : ℤ) (hx : 0 ≤ x) (h : x < 2 ^ (k + 1)) :
    |roundDouble x - x| ≤ 2 ^ (k - 53) := by
  rcases hx.eq_or_lt with h0 | h0
  · rw [← h0, roundDouble_zero]
    simpa using (zpow_pos (by norm_num : (0 : ℚ) < 2) (k - 53)).le
  · rw [roundDouble_pos_eq x h0]
    have hlog := log_two_lt x (k + 1) h0 h
    have hu : (0 : ℚ) < 2 ^ (Int.log 2 x - 52) := zpow_pos (by norm_num) _
    have herr := roundHalfEven_err (x / 2 ^ (Int.log 2 x - 52))
    have e : (roundHalfEven (x / 2 ^ (Int.log 2 x - 52)) : ℚ) * 2 ^ (Int.log 2 x - 52) - x
        = ((roundHalfEven (x / 2 ^ (Int.log 2 x - 52)) : ℚ) - x / 2 ^ (Int.log 2 x - 52))
          * 2 ^ (Int.log 2 x - 52) := by
      field_simp
    rw [e, abs_mul, abs_of_pos hu]
    have h53 : (2 : ℚ) ^ (k - 53) = 1 / 2 * 2 ^ (k - 52) := by
      rw [show k - 53 = (k - 52) + (-1) by ring, zpow_add₀ (by norm_num)]
      norm_num
      ring
    rw [h53]
    have hmono : (2 : ℚ) ^ (Int.log 2 x - 52) ≤ 2 ^ (k - 52) :=
      zpow_le_zpow_right₀ (by norm_num) (by omega)
    calc _ ≤ 1 / 2 * (2 : ℚ) ^ (Int.log 2 x - 52) :=
          mul_le_mul_of_nonneg_right herr hu.le
      _ ≤ 1 / 2 * 2 ^ (k - 52) := by linarith

theorem roundDouble_le_natCast (x : ℚ) (N : ℕ) (hN : N < 2 ^ 53) (hx : 0 ≤ x) (h : x ≤ N) :
    roundDouble x ≤ N := by
  rcases hx.eq_or_lt with h0 | h0
  · rw [← h0, roundDouble_zero]
    exact Nat.cast_nonneg N
  · rw [roundDouble_pos_eq x h0]
    have hN' : (N : ℚ) < 2 ^ (53 : ℤ) :=
      calc (N : ℚ) < ((2 ^ 53 : ℕ) : ℚ) := Nat.cast_lt.mpr hN
        _ = 2 ^ (53 : ℤ) := by norm_num
    have hlog := log_two_lt x 53 h0 (lt_of_le_of_lt h hN')
    have hu : (0 : ℚ) < 2 ^ (Int.log 2 x - 52) := zpow_pos (by norm_num) _
    obtain ⟨j, hj⟩ : ∃ j : ℕ, (j : ℤ) = 52 - Int.log 2 x := ⟨(52 - Int.log 2 x).toNat, by omega⟩
    have hinv : (2 : ℚ) ^ (Int.log 2 x - 52) * 2 ^ j = 1 := by
      rw [← zpow_natCast, hj, ← zpow_add₀ (by norm_num)]
      simp
    have hdiv : (N : ℚ) / 2 ^ (Int.log 2 x - 52) = ((N * 2 ^ j : ℕ) : ℤ) := by
      push_cast
      field_simp
      rw [mul_assoc, mul_comm ((2 : ℚ) ^ j), hinv, mul_one]
    have hle : roundHalfEven (x / 2 ^ (Int.log 2 x - 52)) ≤ ((N * 2 ^ j : ℕ) : ℤ) := by
      apply roundHalfEven_le
      rw [← hdiv]
      exact div_le_div_of_nonneg_right h hu.le
    have hle' : (roundHalfEven (x / 2 ^ (Int.log 2 x - 52)) : ℚ) ≤ ((N * 2 ^ j : ℕ) : ℤ) := by
      exact_mod_cast hle
    calc _ ≤ (((N * 2 ^ j : ℕ) : ℤ) : ℚ) * 2 ^ (Int.log 2 x - 52) :=
          mul_le_mul_of_nonneg_right hle' hu.le
      _ = N := by
          push_cast
          rw [mul_assoc, mul_comm ((2 : ℚ) ^ j), hinv, mul_one]

theorem roundDouble_eq (x : ℚ) (e m : ℤ) (h1 : 2 ^ e ≤ x) (h2 : x < 2 ^ (e + 1))
    (hm : |x / 2 ^ (e - 52) - m| < 1 / 2) : roundDouble x = m * 2 ^ (e - 52) := by
  have hx : 0 < x := lt_of_lt_of_le (zpow_pos (by norm_num) e) h1
  rw [roundDouble_pos_eq x hx, log_two_eq x e h1 h2, roundHalfEven_eq _ m hm]

theorem percentage_bounds (b n : ℕ) (hn : 0 < n) (hbn : b ≤ n) :
    0 ≤ roundDouble (roundDouble ((b : ℚ) / n) * 100)
    ∧ roundDouble (roundDouble ((b : ℚ) / n) * 100) ≤ 100
    ∧ |roundDouble (roundDouble ((b : ℚ) / n) * 100) - (b : ℚ) * 100 / n| ≤ 1 / 2 ^ 45 := by
  have hn' : (0 : ℚ) < n := Nat.cast_pos.mpr hn
  have hq0 : (0 : ℚ) ≤ (b : ℚ) / n := div_nonneg (Nat.cast_nonneg b) hn'.le
  have hq1 : (b : ℚ) / n ≤ 1 := (div_le_one hn').mpr (Nat.cast_le.mpr hbn)
  have a0 := roundDouble_nonneg _ hq0
  have a1 : roundDouble ((b : ℚ) / n) ≤ 1 := by
    have := roundDouble_le_natCast _ 1 (by norm_num) hq0 (by simpa using hq1)
    simpa using this
  have ae := roundDouble_err _ 0 hq0 (by norm_num; linarith)
  have hp0 : (0 : ℚ) ≤ roundDouble ((b : ℚ) / n) * 100 := by linarith
  have hp1 : roundDouble ((b : ℚ) / n) * 100 ≤ 100 := by linarith
  have b0 := roundDouble_nonneg _ hp0
  have b1 : roundDouble (roundDouble ((b : ℚ) / n) * 100) ≤ 100 := by
    have := roundDouble_le_natCast _ 100 (by norm_num) hp0 (by simpa using hp1)
    simpa using this
  have be := roundDouble_err _ 6 hp0 (by norm_num; linarith)
  refine ⟨b0, b1, ?_⟩
  have e53 : (2 : ℚ) ^ ((0 : ℤ) - 53) = 1 / 2 ^ 53 := by norm_num
  have e47 : (2 : ℚ) ^ ((6 : ℤ) - 53) = 1 / 2 ^ 47 := by norm_num
  rw [e53] at ae
  rw [e47] at be
  rw [abs_le] at ae be ⊢
  have ex : (b : ℚ) * 100 / n = (b : ℚ) / n * 100 := by ring
  rw [ex]
  constructor <;> norm_num at ae be ⊢ <;> linarith [ae.1, ae.2, be.1, be.2]

theorem percentage_nearest (b n : ℕ) (hn : 0 < n) (hbn : b ≤ n) (hlen : n < 2 ^ 32) :
    |((mathRound (roundDouble (roundDouble ((b : ℚ) / n) * 100)) : ℤ) : ℚ)
        - (b : ℚ) * 100 / n| ≤ 1 / 2 := by
  obtain ⟨-, -, herr⟩ := percentage_bounds b n hn hbn
  have hn' : (0 : ℚ) < n := Nat.cast_pos.mpr hn
  have hlen' : (n : ℚ) < 2 ^ 32 := by exact_mod_cast hlen
  unfold mathRound
  generalize roundDouble (roundDouble ((b : ℚ) / n) * 100) = p at herr ⊢
  have f1 := Int.floor_le (p + 1 / 2)
  have f2 := Int.lt_floor_add_one (p + 1 / 2)
  generalize ⌊p + 1 / 2⌋ = m at f1 f2 ⊢
  have hx : (b : ℚ) * 100 / n * n = b * 100 := by field_simp
  generalize hxe : (b : ℚ) * 100 / n = x at herr hx ⊢
  rw [abs_le] at herr ⊢
  constructor
  · by_contra hc
    push_neg at hc
    have h1 : ((200 * b : ℤ) : ℚ) > (((2 * m + 1) * n : ℤ) : ℚ) := by
      push_cast
      nlinarith
    have h2 : (2 * m + 1) * n + 1 ≤ (200 * b : ℤ) := Int.add_one_le_iff.mpr (Int.cast_lt.mp h1)
    have h3 : (((2 * m + 1) * n + 1 : ℤ) : ℚ) ≤ ((200 * b : ℤ) : ℚ) := Int.cast_le.mpr h2
    push_cast at h3
    have h4 : (2 * x - 2 * m - 1) * n ≥ 1 := by nlinarith
    have h5 : 2 * x - 2 * m - 1 < 2 / 2 ^ 45 := by linarith [herr.1, herr.2]
    have h6 : (2 * x - 2 * m - 1) * n ≤ 2 / 2 ^ 45 * n :=
      mul_le_mul_of_nonneg_right h5.le hn'.le
    have h7 : (2 : ℚ) / 2 ^ 45 * n < 1 := by
      have : (2 : ℚ) / 2 ^ 45 * n < 2 / 2 ^ 45 * 2 ^ 32 :=
        mul_lt_mul_of_pos_left hlen' (by norm_num)
      norm_num at this ⊢
      linarith
    linarith
  · by_contra hc
    push_neg at hc
    have h1 : ((200 * b : ℤ) : ℚ) < (((2 * m - 1) * n : ℤ) : ℚ) := by
      push_cast
      nlinarith
    have h2 : (200 * b : ℤ) + 1 ≤ (2 * m - 1) * n := Int.add_one_le_iff.mpr (Int.cast_lt.mp h1)
    have h3 : ((200 * b + 1 : ℤ) : ℚ) ≤ (((2 * m - 1) * n : ℤ) : ℚ) := Int.cast_le.mpr h2
    push_cast at h3
    have h4 : (2 * m - 1 - 2 * x) * n ≥ 1 := by nlinarith
    have h5 : 2 * m - 1 - 2 * x ≤ 2 / 2 ^ 45 := by linarith [herr.1, herr.2]
    have h6 : (2 * m - 1 - 2 * x) * n ≤ 2 / 2 ^ 45 * n :=
      mul_le_mul_of_nonneg_right h5 hn'.le
    have h7 : (2 : ℚ) / 2 ^ 45 * n < 1 := by
      have : (2 : ℚ) / 2 ^ 45 * n < 2 / 2 ^ 45 * 2 ^ 32 :=
        mul_lt_mul_of_pos_left hlen' (by norm_num)
      norm_num at this ⊢
      linarith
    linarith

theorem nearest_off_tie (m : ℤ) (c n : ℕ) (hn : 0 < n)
    (h : |(m : ℚ) - (c : ℚ) * 100 / n| ≤ 1 / 2)
    (htie : ∀ k : ℤ, (200 * c : ℤ) ≠ (2 * k + 1) * n) :
    m = ⌊(c : ℚ) * 100 / n + 1 / 2⌋ := by
  have hn' : (0 : ℚ) < n := Nat.cast_pos.mpr hn
  rw [abs_le] at h
  symm
  rw [Int.floor_eq_iff]
  refine ⟨by linarith [h.2], ?_⟩
  rcases h.1.lt_or_eq with hlt | heq
  · linarith
  · exfalso
    apply htie m
    have e : (c : ℚ) * 100 / n * n = c * 100 := by field_simp
    have e2 : ((200 * c : ℤ) : ℚ) = (((2 * m + 1) * n : ℤ) : ℚ) := by
      push_cast
      have : (c : ℚ) * 100 / n = m + 1 / 2 := by linarith
      rw [this] at e
      linarith
    exact Int.cast_injective e2

/-! ### The bounce rate -/

theorem bounceRate_eq (H : Host) (sessArr : List JObj) (hne : sessArr ≠ []) :
    bounceRate H sessArr
      = mathRound (roundDouble (roundDouble
          (((sessArr.filter fun s => isBounce H s).length : ℚ) / sessArr.length) * 100)) := by
  have hl : 0 < sessArr.length := List.length_pos.mpr hne
  unfold bounceRate bounces
  rw [if_pos (by omega)]

theorem filter_isBounce_numeric (H : Host) (sessArr : List JObj)
    (h : ∀ s ∈ sessArr, numOrAbsent (prop s "pages") = true
      ∧ numOrAbsent (prop s "duration") = true) :
    (sessArr.filter fun s => isBounce H s)
      = sessArr.filter fun s =>
          decide (numOr (prop s "pages") 1 ≤ 1 ∨ numOr (prop s "duration") 0 < 10) :=
  List.filter_congr fun s hs => isBounce_numeric H s (h s hs).1 (h s hs).2

/-- Claim C4. For every list of session records the bounce rate of `renderKPIs`
is an integer between 0 and 100 and it is 0 for the empty list. For a
non-empty list (of fewer than `2 ^ 32` sessions, as every array is) it is an
integer nearest to the percentage of the sessions that pass the bounce filter,
and it is that percentage plus one half, rounded down, unless the percentage
lies midway between two integers. A session whose `pages` and `duration` are
numbers or absent passes the filter exactly when its pages (1 if absent) are
at most 1 or its duration (0 if absent) is below 10. -/
theorem C4_bounce_rate (H : Host) (sessArr : List JObj) :
    0 ≤ bounceRate H sessArr
    ∧ bounceRate H sessArr ≤ 100
    ∧ bounceRate H [] = 0
    ∧ (sessArr ≠ [] → sessArr.length < 2 ^ 32 →
        |(bounceRate H sessArr : ℚ)
            - ((sessArr.filter fun s => isBounce H s).length : ℚ) * 100 / sessArr.length|
          ≤ 1 / 2
        ∧ ((∀ k : ℤ, (200 * (sessArr.filter fun s => isBounce H s).length : ℤ)
              ≠ (2 * k + 1) * sessArr.length) →
            bounceRate H sessArr
              = ⌊((sessArr.filter fun s => isBounce H s).length : ℚ) * 100 / sessArr.length
                  + 1 / 2⌋))
    ∧ (∀ s : JObj, numOrAbsent (prop s "pages") = true →
        numOrAbsent (prop s "duration") = true →
        (isBounce H s = true
          ↔ numOr (prop s "pages") 1 ≤ 1 ∨ numOr (prop s "duration") 0 < 10))
    ∧ ((∀ s ∈ sessArr, numOrAbsent (prop s "pages") = true
          ∧ numOrAbsent (prop s "duration") = true) →
        (sessArr.filter fun s => isBounce H s)
          = sessArr.filter fun s =>
              decide (numOr (prop s "pages") 1 ≤ 1 ∨ numOr (prop s "duration") 0 < 10)) := by
  have hle : (sessArr.filter fun s => isBounce H s).length ≤ sessArr.length :=
    List.length_filter_le _ _
  have hbounds : 0 ≤ bounceRate H sessArr ∧ bounceRate H sessArr ≤ 100 := by
    by_cases hne : sessArr = []
    · subst hne
      simp [bounceRate]
    · have hl : 0 < sessArr.length := List.length_pos.mpr hne
      obtain ⟨h0, h1, -⟩ := percentage_bounds _ _ hl hle
      rw [bounceRate_eq H sessArr hne]
      unfold mathRound
      constructor
      · exact Int.floor_nonneg.mpr (by linarith)
      · rw [Int.floor_le_iff]
        push_cast
        linarith
  refine ⟨hbounds.1, hbounds.2, ?_, ?_, ?_, ?_⟩
  · simp [bounceRate]
  · intro hne hlen
    have hl : 0 < sessArr.length := List.length_pos.mpr hne
    have hnear : |(bounceRate H sessArr : ℚ)
        - ((sessArr.filter fun s => isBounce H s).length : ℚ) * 100 / sessArr.length|
          ≤ 1 / 2 := by
      rw [bounceRate_eq H sessArr hne]
      exact percentage_nearest _ _ hl hle hlen
    exact ⟨hnear, fun htie => nearest_off_tie _ _ _ hl hnear htie⟩
  · intro s hp hd
    rw [isBounce_numeric H s hp hd, decide_eq_true_iff]
  · exact filter_isBounce_numeric H sessArr

/-- Claim C4 at forty sessions, 23 of them bouncing: the bounce rate is within
one half of the percentage of bouncing sessions. -/
theorem C4_sample_forty_sessions :
    |(bounceRate sampleHost sampleFortySessions : ℚ)
        - ((sampleFortySessions.filter fun s => isBounce sampleHost s).length : ℚ) * 100
          / sampleFortySessions.length| ≤ 1 / 2 :=
  ((C4_bounce_rate sampleHost sampleFortySessions).2.2.2.1 (by decide) (by decide)).1

/-- Two sessions, one bouncing: the bounce rate is 50. -/
theorem bounceRate_sample :
    bounceRate sampleHost [[("duration", .num 4), ("pages", .num 3)],
      [("duration", .num 40), ("pages", .num 3)]] = 50 := by
  have hb : bounces sampleHost [[("duration", .num 4), ("pages", .num 3)],
      [("duration", .num 40), ("pages", .num 3)]] = 1 := by decide
  have a : roundDouble ((1 : ℚ) / 2) = 4503599627370496 * 2 ^ ((-1 : ℤ) - 52) := by
    have := roundDouble_eq ((1 : ℚ) / 2) (-1) 4503599627370496 (by norm_num) (by norm_num)
      (by rw [abs_lt]; norm_num)
    exact_mod_cast this
  have b : roundDouble (4503599627370496 * 2 ^ ((-1 : ℤ) - 52) * 100)
      = 7036874417766400 * 2 ^ ((5 : ℤ) - 52) := by
    have := roundDouble_eq (4503599627370496 * 2 ^ ((-1 : ℤ) - 52) * 100) 5 7036874417766400
      (by norm_num) (by norm_num) (by rw [abs_lt]; norm_num)
    exact_mod_cast this
  unfold bounceRate mathRound
  rw [if_pos (by decide), hb]
  simp only [List.length_cons, List.length_nil]
  push_cast
  norm_num
  rw [a, b, Int.floor_eq_iff]
  norm_num

/-- Forty sessions, 23 of them bouncing: the percentage is 57.5 and the bounce
rate is 57, the quotient `23 / 40` being the double just below 0.575. -/
theorem bounceRate_sample_forty :
    bounces sampleHost sampleFortySessions = 23
    ∧ sampleFortySessions.length = 40
    ∧ bounceRate sampleHost sampleFortySessions = 57 := by
  have hb : bounces sampleHost sampleFortySessions = 23 := by decide
  have hl : sampleFortySessions.length = 40 := by decide
  refine ⟨hb, hl, ?_⟩
  have a : roundDouble ((23 : ℚ) / 40) = 5179139571476070 * 2 ^ ((-1 : ℤ) - 52) := by
    have := roundDouble_eq ((23 : ℚ) / 40) (-1) 5179139571476070 (by norm_num) (by norm_num)
      (by rw [abs_lt]; norm_num)
    exact_mod_cast this
  have b : roundDouble (5179139571476070 * 2 ^ ((-1 : ℤ) - 52) * 100)
      = 8092405580431359 * 2 ^ ((5 : ℤ) - 52) := by
    have := roundDouble_eq (5179139571476070 * 2 ^ ((-1 : ℤ) - 52) * 100) 5 8092405580431359
      (by norm_num) (by norm_num) (by rw [abs_lt]; norm_num)
    exact_mod_cast this
  unfold bounceRate mathRound
  rw [if_pos (by rw [hl]; decide), hb, hl]
  push_cast
  rw [a, b, Int.floor_eq_iff]
  norm_num

theorem durations_numeric (sessArr : List JObj)
    (h : ∀ s ∈ sessArr, numOrAbsent (prop s "duration") = true) :
    durations sessArr = (nonZeroDurations sessArr).map JVal.num := by
  induction sessArr with
  | nil => rfl
  | cons s ss ih =>
    have hs := h s (List.mem_cons_self _ _)
    have ih' := ih fun x hx => h x (List.mem_cons_of_mem _ hx)
    unfold durations nonZeroDurations definedDurations at ih' ⊢
    cases hv : prop s "duration" with
    | undefined => simpa [List.filter_cons, List.filterMap_cons, hv, JVal.truthy] using ih'
    | num n =>
      by_cases hn : n = 0
      · subst hn
        simpa [List.filter_cons, List.filterMap_cons, hv, JVal.truthy] using ih'
      · simpa [List.filter_cons, List.filterMap_cons, hv, JVal.truthy, hn] using ih'
    | _ => rw [hv] at hs; simp [numOrAbsent] at hs

theorem foldl_jsAdd_num (H : Host) (ds : List Int) (a : Int) :
    (ds.map JVal.num).foldl (jsAdd H) (.num a) = .num (a + ds.sum) := by
  induction ds generalizing a with
  | nil => simp
  | cons d ds ih => simp [List.foldl_cons, jsAdd, ih, add_assoc]

/-- Claim C5, as stated, fails: of the two sessions with durations 0 and 10 the
code averages only the second and returns 10, while the mean of the defined
durations, the 0 included, is 5. -/
theorem C5_zero_duration_left_out :
    (∀ H : Host, avgDuration H sampleDurations = some 10)
    ∧ definedDurations sampleDurations = [0, 10]
    ∧ roundedMean (definedDurations sampleDurations) = 5
    ∧ ¬ (∀ (H : Host) (sessArr : List JObj),
          (∀ s ∈ sessArr, numOrAbsent (prop s "duration") = true) →
          avgDuration H sessArr = some (roundedMean (definedDurations sessArr))) := by
  have h1 : ∀ H : Host, avgDuration H sampleDurations = some 10 := by
    intro H
    simp [avgDuration, durations, sampleDurations, prop, List.lookup, JVal.truthy, jsAdd,
      toNumber, mathRoundDiv]
  refine ⟨h1, by decide, by decide, ?_⟩
  intro h
  have h2 := h sampleHost sampleDurations (by decide)
  rw [h1] at h2
  exact absurd h2 (by decide)

/-- Claim C5, amended. For every list of session records whose `duration` is a
number or absent, the average session duration of `renderKPIs` is the
arithmetic mean of the durations that are defined and not zero, rounded to the
nearest second, and it is 0 when no session has such a duration: a session of
duration 0 is left out of the mean. -/
theorem C5_average_duration (H : Host) (sessArr : List JObj)
    (h : ∀ s ∈ sessArr, numOrAbsent (prop s "duration") = true) :
    avgDuration H sessArr = some (roundedMean (nonZeroDurations sessArr))
    ∧ (nonZeroDurations sessArr = [] → avgDuration H sessArr = some 0)
    ∧ (nonZeroDurations sessArr ≠ [] →
        avgDuration H sessArr
          = some ⌊((nonZeroDurations sessArr).sum : ℚ) / (nonZeroDurations sessArr).length
              + 1 / 2⌋) := by
  have hmain : avgDuration H sessArr = some (roundedMean (nonZeroDurations sessArr)) := by
    unfold avgDuration roundedMean
    rw [durations_numeric sessArr h, List.length_map]
    split
    · rw [foldl_jsAdd_num]
      simp [toNumber]
    · rfl
  refine ⟨hmain, ?_, ?_⟩
  · intro he
    rw [hmain, he]
    rfl
  · intro hne
    rw [hmain, roundedMean_eq_floor _ hne]

/-- The amended claim C5 at the two sample sessions: the mean is that of the
one non-zero duration. -/
theorem C5_sample_mean_of_nonzero :
    avgDuration sampleHost sampleDurations = some (roundedMean [10])
    ∧ nonZeroDurations sampleDurations = [10] :=
  ⟨(C5_average_duration sampleHost sampleDurations (by decide)).1, by decide⟩

/-! ## The table of counts -/

theorem tallyBump_map_fst (t : List (String × Nat)) (k : String) :
    (tallyBump t k).map Prod.fst
      = if k ∈ t.map Prod.fst then t.map Prod.fst else t.map Prod.fst ++ [k] := by
  induction t with
  | nil => simp [tallyBump]
  | cons e t ih =>
    obtain ⟨k', n⟩ := e
    by_cases h : k' = k
    · subst h; simp [tallyBump]
    · have h' : ¬ k = k' := fun e => h e.symm
      simp only [tallyBump, h, if_false, List.map_cons, ih, List.mem_cons, h', false_or]
      split <;> simp

theorem lookup_tallyBump (t : List (String × Nat)) (j k : String) :
    ((tallyBump t j).lookup k).getD 0
      = if k = j then (t.lookup j).getD 0 + 1 else (t.lookup k).getD 0 := by
  induction t with
  | nil =>
    by_cases h : k = j
    · subst h; simp [tallyBump, List.lookup]
    · simp [tallyBump, List.lookup, h, beq_eq_false_iff_ne.mpr h]
  | cons e t ih =>
    obtain ⟨k', n⟩ := e
    by_cases h : k' = j
    · subst h
      by_cases hk : k = k'
      · subst hk; simp [tallyBump, List.lookup]
      · simp [tallyBump, List.lookup, hk, beq_eq_false_iff_ne.mpr hk]
    · have hj : ¬ j = k' := fun e => h e.symm
      by_cases hk : k = k'
      · subst hk
        simp [tallyBump, List.lookup, h, hj]
      · simp only [tallyBump, h, if_false, List.lookup, beq_eq_false_iff_ne.mpr hk,
          beq_eq_false_iff_ne.mpr hj]
        exact ih

theorem tallyKeys_snoc (ks : List String) (k : String) :
    tallyKeys (ks ++ [k]) = tallyBump (tallyKeys ks) k := by
  simp [tallyKeys, List.foldl_append]

theorem lookup_tallyKeys (ks : List String) (k : String) :
    ((tallyKeys ks).lookup k).getD 0 = ks.count k := by
  induction ks using List.reverseRecOn with
  | nil => simp [tallyKeys]
  | append_singleton ks j ih =>
    rw [tallyKeys_snoc, lookup_tallyBump, List.count_append, List.count_singleton]
    by_cases h : k = j
    · subst h
      simp [ih]
    · have h' : ¬ j = k := fun e => h e.symm
      simp [h, h', ih]

theorem tallyKeys_keys (ks : List String) :
    ((tallyKeys ks).map Prod.fst).Nodup
      ∧ (∀ k, k ∈ (tallyKeys ks).map Prod.fst ↔ k ∈ ks)
      ∧ ((tallyKeys ks).map Prod.fst).Pairwise fun a b => ks.indexOf a < ks.indexOf b := by
  induction ks using List.reverseRecOn with
  | nil => simp [tallyKeys]
  | append_singleton ks j ih =>
    obtain ⟨hnd, hmem, hord⟩ := ih
    rw [tallyKeys_snoc, tallyBump_map_fst]
    have hmono : ∀ l : List String, (∀ a ∈ l, a ∈ ks) →
        l.Pairwise (fun a b => ks.indexOf a < ks.indexOf b) →
        l.Pairwise (fun a b => (ks ++ [j]).indexOf a < (ks ++ [j]).indexOf b) := by
      intro l hl hp
      refine hp.imp_of_mem ?_
      intro a b ha hb hab
      rw [List.indexOf_append_of_mem (hl a ha), List.indexOf_append_of_mem (hl b hb)]
      exact hab
    by_cases hj : j ∈ (tallyKeys ks).map Prod.fst
    · rw [if_pos hj]
      refine ⟨hnd, ?_, hmono _ (fun a ha => (hmem a).mp ha) hord⟩
      intro k
      rw [hmem, List.mem_append, List.mem_singleton]
      constructor
      · exact Or.inl
      · rintro (h | h)
        · exact h
        · exact h ▸ (hmem j).mp hj
    · rw [if_neg hj]
      have hjks : j ∉ ks := fun h => hj ((hmem j).mpr h)
      refine ⟨?_, ?_, ?_⟩
      · rw [List.nodup_append]
        refine ⟨hnd, List.nodup_singleton j, ?_⟩
        intro a ha hb
        rw [List.mem_singleton] at hb
        exact hj (hb ▸ ha)
      · intro k
        simp only [List.mem_append, List.mem_singleton, hmem]
      · rw [List.pairwise_append]
        refine ⟨hmono _ (fun a ha => (hmem a).mp ha) hord, List.pairwise_singleton _ _, ?_⟩
        intro a ha b hb
        rw [List.mem_singleton] at hb
        subst hb
        have haks : a ∈ ks := (hmem a).mp ha
        rw [List.indexOf_append_of_mem haks, List.indexOf_append_of_not_mem hjks,
          List.indexOf_cons_self]
        have := List.indexOf_lt_length.mpr haks
        omega

theorem lookup_of_mem_nodup (t : List (String × Nat)) (hnd : (t.map Prod.fst).Nodup)
    (e : String × Nat) (he : e ∈ t) : t.lookup e.1 = some e.2 := by
  induction t with
  | nil => simp at he
  | cons x t ih =>
    obtain ⟨k', n⟩ := x
    rw [List.map_cons, List.nodup_cons] at hnd
    rcases List.mem_cons.mp he with h | h
    · subst h; simp [List.lookup]
    · have hne : e.1 ≠ k' := by
        intro heq
        have hm := List.mem_map_of_mem Prod.fst h
        rw [heq] at hm
        exact hnd.1 hm
      simp only [List.lookup, beq_eq_false_iff_ne.mpr hne]
      exact ih hnd.2 h

theorem mem_tallyKeys (ks : List String) (e : String × Nat) :
    e ∈ tallyKeys ks ↔ e.1 ∈ ks ∧ e.2 = ks.count e.1 := by
  obtain ⟨hnd, hmem, _⟩ := tallyKeys_keys ks
  constructor
  · intro he
    refine ⟨(hmem e.1).mp (List.mem_map_of_mem Prod.fst he), ?_⟩
    have h1 := lookup_of_mem_nodup _ hnd e he
    have h2 := lookup_tallyKeys ks e.1
    rw [h1] at h2
    simpa using h2
  · rintro ⟨h1, h2⟩
    obtain ⟨e', he', hfst⟩ := List.mem_map.mp ((hmem e.1).mpr h1)
    have h3 := lookup_of_mem_nodup _ hnd e' he'
    have h4 := lookup_tallyKeys ks e'.1
    rw [h3] at h4
    have : e' = e := by
      apply Prod.ext hfst
      rw [h2, ← hfst]
      simpa using h4
    exact this ▸ he'

/-! ## Enumeration order, sorting and the top-ten lists -/

theorem objectEntries_perm {β : Type} (t : List (String × β)) : (objectEntries t).Perm t := by
  unfold objectEntries
  exact ((List.perm_insertionSort _ _).append_right _).trans (List.filter_append_perm _ t)

theorem objectEntries_order (ks : List String) :
    (objectEntries (tallyKeys ks)).Pairwise fun a b => entryBefore ks a.1 b.1 := by
  obtain ⟨_, _, hord⟩ := tallyKeys_keys ks
  rw [List.pairwise_map] at hord
  unfold objectEntries
  haveI : IsTotal (String × Nat)
      (fun a b => (arrayIndex? a.1).getD 0 ≤ (arrayIndex? b.1).getD 0) :=
    ⟨fun a b => Nat.le_total _ _⟩
  haveI : IsTrans (String × Nat)
      (fun a b => (arrayIndex? a.1).getD 0 ≤ (arrayIndex? b.1).getD 0) :=
    ⟨fun a b c h1 h2 => Nat.le_trans h1 h2⟩
  have hsorted := List.sorted_insertionSort
    (fun a b : String × Nat => (arrayIndex? a.1).getD 0 ≤ (arrayIndex? b.1).getD 0)
    ((tallyKeys ks).filter fun e => (arrayIndex? e.1).isSome)
  have hidx : ∀ a ∈ ((tallyKeys ks).filter fun e => (arrayIndex? e.1).isSome).insertionSort
      (fun a b => (arrayIndex? a.1).getD 0 ≤ (arrayIndex? b.1).getD 0),
      (arrayIndex? a.1).isSome = true := by
    intro a ha
    have := (List.perm_insertionSort _ _).mem_iff.mp ha
    exact (List.mem_filter.mp this).2
  rw [List.pairwise_append]
  refine ⟨?_, ?_, ?_⟩
  · refine List.Pairwise.imp_of_mem ?_ hsorted
    intro a b ha hb hab
    obtain ⟨i, hi⟩ := Option.isSome_iff_exists.mp (hidx a ha)
    obtain ⟨j, hj⟩ := Option.isSome_iff_exists.mp (hidx b hb)
    simp only [hi, hj, Option.getD_some] at hab
    simp only [entryBefore, hi, hj]
    exact hab
  · refine List.Pairwise.imp_of_mem ?_ (hord.sublist (List.filter_sublist _))
    intro a b ha hb hab
    have ha' := (List.mem_filter.mp ha).2
    have hb' := (List.mem_filter.mp hb).2
    have hna : arrayIndex? a.1 = none := by
      cases h : arrayIndex? a.1 <;> simp [h] at ha' ⊢
    have hnb : arrayIndex? b.1 = none := by
      cases h : arrayIndex? b.1 <;> simp [h] at hb' ⊢
    simp only [entryBefore, hna, hnb]
    exact hab
  · intro a ha b hb
    obtain ⟨i, hi⟩ := Option.isSome_iff_exists.mp (hidx a ha)
    have hb' := (List.mem_filter.mp hb).2
    have hnb : arrayIndex? b.1 = none := by
      cases h : arrayIndex? b.1 <;> simp [h] at hb' ⊢
    simp only [entryBefore, hi, hnb]

theorem filter_orderedInsert_count (c : Nat) (a : String × Nat) (l : List (String × Nat)) :
    (List.orderedInsert (fun a b : String × Nat => a.2 ≥ b.2) a l).filter (fun e => e.2 = c)
      = (a :: l).filter fun e => e.2 = c := by
  induction l with
  | nil => simp
  | cons b l ih =>
    by_cases hab : a.2 ≥ b.2
    · simp [List.orderedInsert, hab]
    · have hlt : a.2 < b.2 := Nat.lt_of_not_le hab
      simp only [List.orderedInsert, hab, if_false]
      rw [List.filter_cons, ih]
      by_cases ha : a.2 = c
      · have hb : ¬ b.2 = c := by omega
        simp [List.filter_cons, ha, hb]
      · simp [List.filter_cons, ha]

theorem filter_insertionSort_count (c : Nat) (l : List (String × Nat)) :
    (l.insertionSort fun a b : String × Nat => a.2 ≥ b.2).filter (fun e => e.2 = c)
      = l.filter fun e => e.2 = c := by
  induction l with
  | nil => rfl
  | cons a l ih =>
    rw [List.insertionSort, filter_orderedInsert_count, List.filter_cons, List.filter_cons, ih]

theorem tallyTop_sorted (l : List (String × Nat)) :
    (l.insertionSort fun a b : String × Nat => a.2 ≥ b.2).Pairwise fun a b => b.2 ≤ a.2 := by
  haveI : IsTotal (String × Nat) (fun a b => a.2 ≥ b.2) := ⟨fun a b => Nat.le_total _ _⟩
  haveI : IsTrans (String × Nat) (fun a b => a.2 ≥ b.2) :=
    ⟨fun a b c h1 h2 => Nat.le_trans h2 h1⟩
  exact List.sorted_insertionSort (fun a b : String × Nat => a.2 ≥ b.2) l

theorem length_tallyKeys (ks : List String) : (tallyKeys ks).length = ks.toFinset.card := by
  obtain ⟨hnd, hmem, _⟩ := tallyKeys_keys ks
  rw [← List.length_map (tallyKeys ks) Prod.fst, ← List.toFinset_card_of_nodup hnd]
  congr 1
  ext k
  simp only [List.mem_toFinset]
  exact hmem k

theorem tallyTop_isTopList (keys : List String) : IsTopList keys (tallyTop keys) := by
  have hperm : ((objectEntries (tallyKeys keys)).insertionSort
      fun a b : String × Nat => a.2 ≥ b.2).Perm (tallyKeys keys) :=
    (List.perm_insertionSort _ _).trans (objectEntries_perm _)
  have hsorted := tallyTop_sorted (objectEntries (tallyKeys keys))
  unfold tallyTop
  refine ⟨List.length_take_le _ _, ?_, ?_, ?_, ?_⟩
  · rw [List.length_take, hperm.length_eq, length_tallyKeys]
  · exact hsorted.sublist (List.take_sublist _ _)
  · intro e he
    exact (mem_tallyKeys keys e).mp (hperm.mem_iff.mp (List.mem_of_mem_take he))
  · intro k hk hout l hl
    have he : (k, keys.count k) ∈ (objectEntries (tallyKeys keys)).insertionSort
        fun a b : String × Nat => a.2 ≥ b.2 :=
      hperm.mem_iff.mpr ((mem_tallyKeys keys (k, keys.count k)).mpr ⟨hk, rfl⟩)
    rw [← List.take_append_drop 10 ((objectEntries (tallyKeys keys)).insertionSort
        fun a b : String × Nat => a.2 ≥ b.2)] at he hsorted
    rcases List.mem_append.mp he with h | h
    · exact absurd (List.mem_map_of_mem Prod.fst h) hout
    · exact (List.pairwise_append.mp hsorted).2.2 l (List.mem_of_mem_getLast? hl)
        (k, keys.count k) h

theorem tallyTop_ties (keys : List String) (x y : String × Nat)
    (hxy : [x, y].Sublist (tallyTop keys)) (heq : x.2 = y.2) :
    entryBefore keys x.1 y.1 := by
  unfold tallyTop at hxy
  have h1 := hxy.trans (List.take_sublist _ _)
  have h2 := h1.filter (fun e : String × Nat => e.2 = x.2)
  rw [filter_insertionSort_count] at h2
  have h3 : [x, y].filter (fun e : String × Nat => e.2 = x.2) = [x, y] := by
    simp [List.filter_cons, heq]
  rw [h3] at h2
  have h4 := (objectEntries_order keys).sublist (h2.trans (List.filter_sublist _))
  exact List.rel_of_pairwise_cons h4 (List.mem_singleton_self y)

/-! ## Tables whose keys name no property of `Object.prototype` -/

theorem bump_numbered (H : Host) (t : List (String × Nat)) (k : String)
    (hk : k ∉ prototypeNames) :
    bump H (t.map numbered) k = (tallyBump t k).map numbered := by
  have h1 : k ≠ "__proto__" := fun h => hk (h ▸ List.mem_cons_self _ _)
  have h2 : k ∉ prototypeFunctions := fun h => hk (List.mem_cons_of_mem _ h)
  induction t with
  | nil => simp [bump, tallyBump, numbered, h1, h2]
  | cons e t ih =>
    obtain ⟨k', n⟩ := e
    by_cases h : k' = k
    · by_cases hn : n = 0
      · simp [bump, tallyBump, numbered, JVal.or, JVal.truthy, jsAdd, h, hn]
      · simp [bump, tallyBump, numbered, JVal.or, JVal.truthy, jsAdd, h, hn]
    · rw [List.map_cons]
      simp only [bump, tallyBump, numbered, h, if_false, List.map_cons]
      rw [← ih]

theorem foldl_bump_numbered (H : Host) (keys : List String)
    (hk : ∀ k ∈ keys, k ∉ prototypeNames) (t : List (String × Nat)) :
    keys.foldl (bump H) (t.map numbered) = (keys.foldl tallyBump t).map numbered := by
  induction keys generalizing t with
  | nil => rfl
  | cons k ks ih =>
    rw [List.foldl_cons, List.foldl_cons, bump_numbered H t k (hk k (List.mem_cons_self _ _))]
    exact ih (fun x hx => hk x (List.mem_cons_of_mem _ hx)) _

theorem countKeys_numbered (H : Host) (keys : List String)
    (hk : ∀ k ∈ keys, k ∉ prototypeNames) :
    countKeys H keys = (tallyKeys keys).map numbered :=
  foldl_bump_numbered H keys hk []

theorem objectEntries_numbered (t : List (String × Nat)) :
    objectEntries (t.map numbered) = (objectEntries t).map numbered := by
  unfold objectEntries
  rw [List.map_append, List.filter_map, List.filter_map]
  congr 1
  exact (List.map_insertionSort
    (r := fun a b : String × Nat => (arrayIndex? a.1).getD 0 ≤ (arrayIndex? b.1).getD 0)
    (s := fun a b : String × JVal => (arrayIndex? a.1).getD 0 ≤ (arrayIndex? b.1).getD 0)
    numbered _ (fun _ _ _ _ => Iff.rfl)).symm

theorem sortByCount_numbered (H : Host) (l : List (String × Nat)) :
    sortByCount H (l.map numbered)
      = (l.insertionSort fun a b => a.2 ≥ b.2).map numbered := by
  have hall : ((l.map numbered).all fun e => (toNumber H e.2).isSome) = true := by
    rw [List.all_eq_true]
    intro e he
    obtain ⟨x, -, rfl⟩ := List.mem_map.mp he
    rfl
  unfold sortByCount
  rw [if_pos hall]
  refine (List.map_insertionSort
    (r := fun a b : String × Nat => a.2 ≥ b.2)
    (s := fun a b : String × JVal => (compareCounts H a b).getD 0 ≤ 0)
    numbered l (fun a _ b _ => ?_)).symm
  show a.2 ≥ b.2 ↔ (b.2 : ℤ) - (a.2 : ℤ) ≤ 0
  omega

theorem topTen_numbered (H : Host) (keys : List String)
    (hk : ∀ k ∈ keys, k ∉ prototypeNames) :
    topTen H keys = (tallyTop keys).map numbered := by
  unfold topTen tallyTop
  rw [countKeys_numbered H keys hk, objectEntries_numbered, sortByCount_numbered, List.map_take]

theorem length_topTen (H : Host) (keys : List String) : (topTen H keys).length ≤ 10 :=
  List.length_take_le _ _

theorem numbered_injective : Function.Injective numbered := by
  intro a b h
  simp only [numbered, Prod.mk.injEq, JVal.num.injEq] at h
  exact Prod.ext h.1 (by exact_mod_cast h.2)

theorem pair_sublist_numbered (top : List (String × Nat)) (x y : String × JVal)
    (h : [x, y].Sublist (top.map numbered)) :
    ∃ x' y' : String × Nat, x = numbered x' ∧ y = numbered y' ∧ [x', y'].Sublist top := by
  obtain ⟨l, hl, he⟩ := List.sublist_map_iff.mp h
  match l, he with
  | [x', y'], he =>
    simp only [List.map_cons, List.map_nil, List.cons.injEq, and_true] at he
    exact ⟨x', y', he.1, he.2, hl⟩

theorem topTen_ties (H : Host) (keys : List String) (hk : ∀ k ∈ keys, k ∉ prototypeNames)
    (x y : String × JVal) (hxy : [x, y].Sublist (topTen H keys)) (heq : x.2 = y.2) :
    entryBefore keys x.1 y.1 := by
  rw [topTen_numbered H keys hk] at hxy
  obtain ⟨x', y', rfl, rfl, hsub⟩ := pair_sublist_numbered _ x y hxy
  have heq' : x'.2 = y'.2 := by
    simp only [numbered, JVal.num.injEq] at heq
    exact_mod_cast heq
  exact tallyTop_ties keys x' y' hsub heq'

/-! ## Top pages and top referrers -/

/-- Claim C6, as stated, fails: of four page views, three of the page
`__proto__` and one of the page `a`, the top-pages list holds the page `a`
alone, with the count 1, and the group of 3 is left out; likewise for the
referrers. -/
theorem C6_proto_group_left_out :
    (∀ H : Host, renderTopPages H sampleProtoPages = [("a", .num 1)])
    ∧ (sampleProtoPages.map fun pv => toStr sampleHost (pageOf pv))
        = ["__proto__", "__proto__", "__proto__", "a"]
    ∧ renderTopReferrers sampleHost sampleProtoReferrers = [("a", .num 1)]
    ∧ (sampleProtoReferrers.map fun pv => toStr sampleHost (referrerOf sampleHost pv))
        = ["__proto__", "__proto__", "__proto__", "a"]
    ∧ ¬ (∃ top : List (String × Nat),
          renderTopPages sampleHost sampleProtoPages = top.map numbered
          ∧ IsTopList (sampleProtoPages.map fun pv => toStr sampleHost (pageOf pv)) top) := by
  refine ⟨fun H => rfl, by decide, by decide, by decide, ?_⟩
  rintro ⟨top, htop, -, -, -, -, hout⟩
  have e : top = [("a", 1)] := by
    apply List.map_injective_iff.mpr numbered_injective
    rw [← htop]
    rfl
  subst e
  have h := hout "__proto__" (by decide) (by decide) ("a", 1) (by decide)
  exact absurd h (by decide)

/-- Claim C6, amended. The top-pages list of `renderTopPages` and the
top-referrers list of `renderTopReferrers` have at most 10 entries. When no
group key of the page views names a property of `Object.prototype`, each list
has 10 entries, or as many as there are groups if that is less, every entry
carries the number of page views of its group, the counts are non-increasing
from first to last, and no group left out of the list has a count greater than
the count of the last listed entry. -/
theorem C6_top_lists (H : Host) (pvArr : List JObj) :
    (renderTopPages H pvArr).length ≤ 10
    ∧ (renderTopReferrers H pvArr).length ≤ 10
    ∧ ((∀ pv ∈ pvArr, toStr H (pageOf pv) ∉ prototypeNames) →
        ∃ top : List (String × Nat),
          renderTopPages H pvArr = top.map numbered
          ∧ IsTopList (pvArr.map fun pv => toStr H (pageOf pv)) top)
    ∧ ((∀ pv ∈ pvArr, toStr H (referrerOf H pv) ∉ prototypeNames) →
        ∃ top : List (String × Nat),
          renderTopReferrers H pvArr = top.map numbered
          ∧ IsTopList (pvArr.map fun pv => toStr H (referrerOf H pv)) top) := by
  refine ⟨length_topTen H _, length_topTen H _, ?_, ?_⟩
  · intro hk
    refine ⟨tallyTop (pvArr.map fun pv => toStr H (pageOf pv)), ?_, tallyTop_isTopList _⟩
    apply topTen_numbered
    intro k hmem
    obtain ⟨pv, hpv, rfl⟩ := List.mem_map.mp hmem
    exact hk pv hpv
  · intro hk
    refine ⟨tallyTop (pvArr.map fun pv => toStr H (referrerOf H pv)), ?_, tallyTop_isTopList _⟩
    apply topTen_numbered
    intro k hmem
    obtain ⟨pv, hpv, rfl⟩ := List.mem_map.mp hmem
    exact hk pv hpv

/-- The amended claim C6 at twelve page views of eleven pages: the list is a
top-ten list of the eleven groups. -/
theorem C6_sample_twelve_views :
    ∃ top : List (String × Nat),
      renderTopPages sampleHost sampleTwelvePages = top.map numbered
      ∧ IsTopList (sampleTwelvePages.map fun pv => toStr sampleHost (pageOf pv)) top :=
  (C6_top_lists sampleHost sampleTwelvePages).2.2.1 (by decide)

/-- Twelve page views of eleven pages: the list keeps ten of them, the page
seen twice first. -/
theorem renderTopPages_sample :
    renderTopPages sampleHost sampleTwelvePages
      = [("c", .num 2), ("a", .num 1), ("b", .num 1), ("d", .num 1), ("e", .num 1),
          ("f", .num 1), ("g", .num 1), ("h", .num 1), ("i", .num 1), ("j", .num 1)] := by
  decide

/-- A page named after a function of `Object.prototype` gets a text for a
count: the text of the function followed by `1`. -/
theorem renderTopPages_constructor_sample :
    countKeys sampleHost ["constructor"]
      = [("constructor", .str "function Object() \x7b [native code] \x7d1")] := by
  decide

/-- Claim C7, as stated, fails: of two pages seen once each, `10` first and `2`
second, the list shows `2` before `10`, for pages and for referrers alike. -/
theorem C7_digit_keys_reordered :
    (∀ H : Host, renderTopPages H sampleDigitPages = [("2", .num 1), ("10", .num 1)])
    ∧ renderTopReferrers sampleHost sampleDigitReferrers = [("2", .num 1), ("10", .num 1)]
    ∧ (sampleDigitPages.map fun pv => toStr sampleHost (pageOf pv)) = ["10", "2"]
    ∧ (sampleDigitReferrers.map fun pv => toStr sampleHost (referrerOf sampleHost pv))
        = ["10", "2"]
    ∧ ¬ (∀ (H : Host) (pvArr : List JObj) (x y : String × JVal),
          [x, y].Sublist (renderTopPages H pvArr) → x.2 = y.2 →
          (pvArr.map fun pv => toStr H (pageOf pv)).indexOf x.1
            < (pvArr.map fun pv => toStr H (pageOf pv)).indexOf y.1) := by
  refine ⟨fun H => rfl, by decide, by decide, by decide, ?_⟩
  intro h
  have h2 := h sampleHost sampleDigitPages ("2", .num 1) ("10", .num 1) (by decide) rfl
  exact absurd h2 (by decide)

/-- Claim C7, amended. When no group key of the page views names a property of
`Object.prototype`, two groups with equal counts appear in the top-pages (and
top-referrers) list in the enumeration order of the table of counts: a group
whose key is an array index (a canonical decimal numeral) comes before every
group whose key is not, two such groups come in ascending numeric order, and
two groups whose keys are not array indices come in the order in which their
keys were first seen in the input list. -/
theorem C7_tie_order (H : Host) (pvArr : List JObj) (x y : String × JVal)
    (hxy : x.2 = y.2) :
    ((∀ pv ∈ pvArr, toStr H (pageOf pv) ∉ prototypeNames) →
        [x, y].Sublist (renderTopPages H pvArr) →
        entryBefore (pvArr.map fun pv => toStr H (pageOf pv)) x.1 y.1
        ∧ (arrayIndex? x.1 = none → arrayIndex? y.1 = none →
            (pvArr.map fun pv => toStr H (pageOf pv)).indexOf x.1
              < (pvArr.map fun pv => toStr H (pageOf pv)).indexOf y.1))
    ∧ ((∀ pv ∈ pvArr, toStr H (referrerOf H pv) ∉ prototypeNames) →
        [x, y].Sublist (renderTopReferrers H pvArr) →
        entryBefore (pvArr.map fun pv => toStr H (referrerOf H pv)) x.1 y.1
        ∧ (arrayIndex? x.1 = none → arrayIndex? y.1 = none →
            (pvArr.map fun pv => toStr H (referrerOf H pv)).indexOf x.1
              < (pvArr.map fun pv => toStr H (referrerOf H pv)).indexOf y.1)) := by
  constructor
  · intro hk hsub
    have hk' : ∀ k ∈ pvArr.map (fun pv => toStr H (pageOf pv)), k ∉ prototypeNames := by
      intro k hmem
      obtain ⟨pv, hpv, rfl⟩ := List.mem_map.mp hmem
      exact hk pv hpv
    have h := topTen_ties H _ hk' x y hsub hxy
    refine ⟨h, fun hx hy => ?_⟩
    simpa only [entryBefore, hx, hy] using h
  · intro hk hsub
    have hk' : ∀ k ∈ pvArr.map (fun pv => toStr H (referrerOf H pv)), k ∉ prototypeNames := by
      intro k hmem
      obtain ⟨pv, hpv, rfl⟩ := List.mem_map.mp hmem
      exact hk pv hpv
    have h := topTen_ties H _ hk' x y hsub hxy
    refine ⟨h, fun hx hy => ?_⟩
    simpa only [entryBefore, hx, hy] using h

/-- The amended claim C7 at the sample: `2` and `10` are array indices and are
listed in ascending numeric order. -/
theorem C7_sample_digit_ties :
    entryBefore ["10", "2"] "2" "10"
    ∧ arrayIndex? "2" = some 2 ∧ arrayIndex? "10" = some 10 :=
  ⟨((C7_tie_order sampleHost sampleDigitPages ("2", .num 1) ("10", .num 1) rfl).1
      (by decide) (by decide)).1,
    by decide, by decide⟩

/-- Ties between keys that are not array indices keep the first-seen order. -/
theorem renderTopPages_ties_sample :
    renderTopPages sampleHost
      [[("_slug", .str "b")], [("_slug", .str "a")], [("_slug", .str "c")],
        [("_slug", .str "a")]]
      = [("a", .num 2), ("b", .num 1), ("c", .num 1)] := by
  decide

/-! ## The key of a referrer -/

/-- Claim C8, as stated, fails: a referrer that does not parse as a URL is
grouped under its own text, not under `Direct`. -/
theorem C8_unparsable_referrer_kept :
    sampleHost.hostname "not a url" = none
    ∧ referrerOf sampleHost [("referrer", .str "not a url")] = .str "not a url"
    ∧ renderTopReferrers sampleHost [[("referrer", .str "not a url")]]
        = [("not a url", .num 1)]
    ∧ (∀ H : Host, H.hostname "not a url" = none →
        referrerOf H [("referrer", .str "not a url")] ≠ .str "Direct") := by
  refine ⟨by decide, by decide, by decide, ?_⟩
  intro H hH
  have : referrerOf H [("referrer", .str "not a url")] = .str "not a url" := by
    simp [referrerOf, prop, List.lookup, JVal.or, JVal.truthy, toStr, hH]
  rw [this]
  decide

/-- Claim C8, amended. In `renderTopReferrers` a page view is grouped under
`Direct` when its referrer is absent (not truthy) or is the text `Direct`;
under the host name parsed from the referrer when the referrer parses as a URL;
and under the referrer itself when it does not parse. -/
theorem C8_referrer_key (H : Host) (pv : JObj) :
    ((prop pv "referrer").truthy = false ∨ prop pv "referrer" = .str "Direct" →
        referrerOf H pv = .str "Direct")
    ∧ (∀ h : String, (prop pv "referrer").truthy = true →
        prop pv "referrer" ≠ .str "Direct" →
        H.hostname (toStr H (prop pv "referrer")) = some h →
        referrerOf H pv = .str h)
    ∧ ((prop pv "referrer").truthy = true →
        prop pv "referrer" ≠ .str "Direct" →
        H.hostname (toStr H (prop pv "referrer")) = none →
        referrerOf H pv = prop pv "referrer") := by
  refine ⟨?_, ?_, ?_⟩
  · rintro (h | h)
    · simp [referrerOf, JVal.or, h]
    · simp [referrerOf, JVal.or, h, JVal.truthy]
  · intro h ht hne hp
    simp [referrerOf, JVal.or, ht, hne, hp]
  · intro ht hne hp
    simp [referrerOf, JVal.or, ht, hne, hp]

/-- Three page views: one referred from a URL, one with a referrer that is not
a URL, one without a referrer. -/
theorem renderTopReferrers_sample :
    renderTopReferrers sampleHost
      [[("referrer", .str "https://www.google.com/search?q=nanny")],
        [("referrer", .str "not a url")], [("page", .str "/")]]
      = [("www.google.com", .num 1), ("not a url", .num 1), ("Direct", .num 1)] := by
  decide

/-! ## Traffic sources -/

theorem toLowerCase_direct (H : Host) : toLowerCase H "direct" = "direct" := by
  have h : ("direct" : String).data.all (fun c => decide (c.toNat < 128)) = true := by decide
  unfold toLowerCase
  rw [if_pos h]
  decide

theorem sourceOf_typed (H : Host) (pv : JObj) (h : strOrAbsent (prop pv "source") = true) :
    (sourceOf H pv).map classifySource = some (sourceCategory H pv) := by
  unfold sourceOf sourceCategory
  cases hv : prop pv "source" with
  | undefined => simp [JVal.or, JVal.truthy, toLowerCase_direct, classifySource]
  | str s =>
    by_cases hs : s = ""
    · subst hs
      simp [JVal.or, JVal.truthy, toLowerCase_direct, classifySource]
    · simp [JVal.or, JVal.truthy, hs, classifySource]
  | _ => rw [hv] at h; simp [strOrAbsent] at h

theorem renderTrafficSources_fold (H : Host) (pvArr : List JObj)
    (h : ∀ pv ∈ pvArr, strOrAbsent (prop pv "source") = true) (acc : SourceCounts) :
    pvArr.foldlM (fun sources pv =>
        (sourceOf H pv).map fun src => sources.incr (classifySource src)) acc
      = some (pvArr.foldl (fun sources pv => sources.incr (sourceCategory H pv)) acc) := by
  induction pvArr generalizing acc with
  | nil => rfl
  | cons pv pvs ih =>
    have hpv := sourceOf_typed H pv (h pv (List.mem_cons_self _ _))
    obtain ⟨src, hsrc, hcat⟩ := Option.map_eq_some'.mp hpv
    rw [List.foldlM_cons, hsrc, List.foldl_cons, ← hcat]
    exact ih (fun x hx => h x (List.mem_cons_of_mem _ hx)) _

theorem tally_counts (f : JObj → Source) (pvArr : List JObj) (acc : SourceCounts) :
    (pvArr.foldl (fun sources pv => sources.incr (f pv)) acc).Direct
        = acc.Direct + (pvArr.filter fun pv => f pv = .Direct).length
    ∧ (pvArr.foldl (fun sources pv => sources.incr (f pv)) acc).Social
        = acc.Social + (pvArr.filter fun pv => f pv = .Social).length
    ∧ (pvArr.foldl (fun sources pv => sources.incr (f pv)) acc).Search
        = acc.Search + (pvArr.filter fun pv => f pv = .Search).length
    ∧ (pvArr.foldl (fun sources pv => sources.incr (f pv)) acc).Referral
        = acc.Referral + (pvArr.filter fun pv => f pv = .Referral).length
    ∧ (pvArr.foldl (fun sources pv => sources.incr (f pv)) acc).total
        = acc.total + pvArr.length := by
  induction pvArr generalizing acc with
  | nil => simp
  | cons pv pvs ih =>
    obtain ⟨h1, h2, h3, h4, h5⟩ := ih (acc.incr (f pv))
    rw [List.foldl_cons]
    refine ⟨?_, ?_, ?_, ?_, ?_⟩
    · rw [h1]
      cases hf : f pv <;> simp [SourceCounts.incr, List.filter_cons, hf]
      omega
    · rw [h2]
      cases hf : f pv <;> simp [SourceCounts.incr, List.filter_cons, hf]
      omega
    · rw [h3]
      cases hf : f pv <;> simp [SourceCounts.incr, List.filter_cons, hf]
      omega
    · rw [h4]
      cases hf : f pv <;> simp [SourceCounts.incr, List.filter_cons, hf]
      omega
    · rw [h5]
      cases hf : f pv <;> simp [SourceCounts.incr, SourceCounts.total] <;> omega

/-- Claim C9. For every list of page views whose `source` is absent or a
string, the loop of `renderTrafficSources` completes and puts each record into
exactly one of the four categories, the one `sourceCategory` names (absent or
`direct`: Direct; a listed search engine: Search; a listed social platform:
Social; anything else: Referral; compared in lower case), so each count is the
number of records of its category and the four counts sum to the length of the
list. -/
theorem C9_traffic_sources_partition (H : Host) (pvArr : List JObj)
    (h : ∀ pv ∈ pvArr, strOrAbsent (prop pv "source") = true) :
    ∃ c : SourceCounts, renderTrafficSources H pvArr = some c
      ∧ c.Direct = (pvArr.filter fun pv => sourceCategory H pv = .Direct).length
      ∧ c.Social = (pvArr.filter fun pv => sourceCategory H pv = .Social).length
      ∧ c.Search = (pvArr.filter fun pv => sourceCategory H pv = .Search).length
      ∧ c.Referral = (pvArr.filter fun pv => sourceCategory H pv = .Referral).length
      ∧ c.Direct + c.Social + c.Search + c.Referral = pvArr.length := by
  obtain ⟨h1, h2, h3, h4, h5⟩ := tally_counts (sourceCategory H) pvArr ⟨0, 0, 0, 0⟩
  refine ⟨_, renderTrafficSources_fold H pvArr h ⟨0, 0, 0, 0⟩, ?_, ?_, ?_, ?_, ?_⟩
  · simpa using h1
  · simpa using h2
  · simpa using h3
  · simpa using h4
  · simpa [SourceCounts.total] using h5

/-- Claim C9 at five page views: no source, `Google`, `facebook`, a newsletter
and `DIRECT`. -/
theorem C9_sample_five_sources :
    ∃ c : SourceCounts,
      renderTrafficSources sampleHost
          [[("page", .str "/")], [("source", .str "Google")], [("source", .str "facebook")],
            [("source", .str "newsletter")], [("source", .str "DIRECT")]] = some c
      ∧ c.Direct = 2 ∧ c.Social = 1 ∧ c.Search = 1 ∧ c.Referral = 1
      ∧ c.Direct + c.Social + c.Search + c.Referral = 5 := by
  obtain ⟨c, hc, h1, h2, h3, h4, h5⟩ := C9_traffic_sources_partition sampleHost
    [[("page", .str "/")], [("source", .str "Google")], [("source", .str "facebook")],
      [("source", .str "newsletter")], [("source", .str "DIRECT")]] (by decide)
  refine ⟨c, hc, ?_, ?_, ?_, ?_, ?_⟩
  · rw [h1]; decide
  · rw [h2]; decide
  · rw [h3]; decide
  · rw [h4]; decide
  · rw [h5]; rfl

/-! ## Live visitors -/

theorem filterThrow_map {α β : Type} (f : α → β) (p : β → Option Bool) (l : List α) :
    (filterThrow p (l.map f)).map List.length
      = (filterThrow (fun a => p (f a)) l).map List.length := by
  have h : filterThrow p (l.map f) = (filterThrow (fun a => p (f a)) l).map (List.map f) := by
    induction l with
    | nil => rfl
    | cons a l ih =>
      simp only [List.map_cons, filterThrow, ih]
      cases p (f a) with
      | none => rfl
      | some b =>
        cases filterThrow (fun a => p (f a)) l with
        | none => rfl
        | some r => cases b <;> simp
  rw [h, Option.map_map]
  congr 1
  funext r
  simp

theorem isLive_numeric (H : Host) (now : Int) (t l : JVal)
    (ht : numOrAbsent t = true) (hl : numOrAbsent l = true) :
    Option.map
        (fun t =>
          match toNumber H t with
          | some n => decide (now - n < 60000)
          | none => false)
        ((some t).bind fun a =>
          if a.truthy = true then some a else Option.map (fun l => l.or (.num 0)) (some l))
      = some (decide ((now - if numOr t 0 ≠ 0 then numOr t 0 else numOr l 0) < 60000)) := by
  cases t with
  | undefined =>
    cases l with
    | undefined => simp [JVal.truthy, JVal.or, toNumber, numOr]
    | num l =>
      by_cases hl0 : l = 0
      · subst hl0; simp [JVal.truthy, JVal.or, toNumber, numOr]
      · simp [JVal.truthy, JVal.or, toNumber, numOr, hl0]
    | _ => simp [numOrAbsent] at hl
  | num t =>
    by_cases ht0 : t = 0
    · subst ht0
      cases l with
      | undefined => simp [JVal.truthy, JVal.or, toNumber, numOr]
      | num l =>
        by_cases hl0 : l = 0
        · subst hl0; simp [JVal.truthy, JVal.or, toNumber, numOr]
        · simp [JVal.truthy, JVal.or, toNumber, numOr, hl0]
      | _ => simp [numOrAbsent] at hl
    · simp [JVal.truthy, JVal.or, toNumber, numOr, ht0]
  | _ => simp [numOrAbsent] at ht

theorem isLive_presence (H : Host) (now : Int) (p : JVal) (h : isPresenceRecord p = true) :
    isLive H now p = some (isFresh now p) := by
  cases p with
  | obj r =>
    simp only [isPresenceRecord, Bool.and_eq_true] at h
    obtain ⟨ht, hl⟩ := h
    simp only [isLive, lastSeenOf, readProp, isFresh, lastSeenTime]
    exact isLive_numeric H now _ _ ht hl
  | _ => simp [isPresenceRecord] at h

theorem filterThrow_total {α : Type} (p : α → Option Bool) (q : α → Bool) (l : List α)
    (h : ∀ a ∈ l, p a = some (q a)) : filterThrow p l = some (l.filter q) := by
  induction l with
  | nil => rfl
  | cons a l ih =>
    simp only [filterThrow, h a (List.mem_cons_self _ _),
      ih fun x hx => h x (List.mem_cons_of_mem _ hx)]
    cases hq : q a <;> simp [List.filter_cons, hq]

/-- Claim C10. For every presence snapshot and every time `now`, the live count
that `renderKPIs` reads on demand and the one the callback of
`subscribeLiveVisitors` computes are the same; when the snapshot holds presence
records, it is the number of records with `now - lastSeen < 60000`, the
`timestamp` of a record standing for its `lastSeen` when it has one; and for
the snapshot of one visitor seen 30000 ms ago and one seen 90000 ms ago it
is 1. -/
theorem C10_live_count (H : Host) (now : Int) (val : JVal) :
    liveOnDemand H now val = liveSubscribed H now val
    ∧ ((∀ e ∈ entriesOrEmpty val, isPresenceRecord e.2 = true) →
        liveOnDemand H now val
          = some ((entriesOrEmpty val).filter fun e => isFresh now e.2).length)
    ∧ liveOnDemand H now (samplePresence now) = some 1
    ∧ liveSubscribed H now (samplePresence now) = some 1 := by
  have heq : ∀ v, liveOnDemand H now v = liveSubscribed H now v := fun v =>
    filterThrow_map Prod.snd (isLive H now) (entriesOrEmpty v)
  have htyped : ∀ v, (∀ e ∈ entriesOrEmpty v, isPresenceRecord e.2 = true) →
      liveOnDemand H now v
        = some ((entriesOrEmpty v).filter fun e => isFresh now e.2).length := by
    intro v hv
    rw [heq]
    unfold liveSubscribed
    rw [filterThrow_total (fun entry => isLive H now entry.2) (fun e => isFresh now e.2) _
      (fun e he => isLive_presence H now e.2 (hv e he))]
    rfl
  have hsample : liveOnDemand H now (samplePresence now) = some 1 := by
    rw [htyped]
    · have e1 : isFresh now (.obj [("lastSeen", .num (now - 30000))]) = true := by
        simp [isFresh, lastSeenTime, prop, List.lookup, numOr]
      have e2 : isFresh now (.obj [("lastSeen", .num (now - 90000))]) = false := by
        simp [isFresh, lastSeenTime, prop, List.lookup, numOr]
      simp [samplePresence, entriesOrEmpty, List.filter_cons, e1, e2]
    · intro e he
      simp only [samplePresence, entriesOrEmpty, List.mem_cons, List.mem_singleton,
        List.not_mem_nil, or_false] at he
      rcases he with rfl | rfl <;> rfl
  exact ⟨heq val, htyped val, hsample, heq _ ▸ hsample⟩

/-- The live count at a concrete time, with a record that carries both a
`timestamp` and a `lastSeen`. -/
theorem liveOnDemand_sample :
    liveOnDemand sampleHost 1714550060000
      (.obj [("p1", .obj [("timestamp", .num 1714550050000), ("lastSeen", .num 1)]),
             ("p2", .obj [("lastSeen", .num 1714549900000)]),
             ("p3", .obj [("page", .str "/")])]) = some 1 := by
  decide

/-! ## Device chart -/

theorem capitalize_detectDevice (H : Host) (ua : String) :
    capitalize H (detectDevice ua) = detectDevice ua := by
  unfold detectDevice
  split
  · rfl
  · split <;> rfl

theorem detectDevice_mem (ua : String) :
    detectDevice ua ∈ ["Mobile", "Tablet", "Desktop"] := by
  unfold detectDevice
  split
  · simp
  · split <;> simp

theorem sessionDeviceLabel_typed (H : Host) (s : JObj)
    (h : strOrAbsent (prop s "device") = true) :
    sessionDeviceLabel H s = some (deviceLabelOf H s) := by
  unfold sessionDeviceLabel deviceLabelOf
  cases hv : prop s "device" with
  | undefined => simp [JVal.or, JVal.truthy, capitalize_detectDevice]
  | str d =>
    by_cases hd : d = ""
    · subst hd
      simp [JVal.or, JVal.truthy, capitalize_detectDevice]
    · simp [JVal.or, JVal.truthy, hd]
  | _ => rw [hv] at h; simp [strOrAbsent] at h

theorem sessionDevices_fold (H : Host) (sessArr : List JObj)
    (h : ∀ s ∈ sessArr, strOrAbsent (prop s "device") = true) (acc : JObj) :
    sessArr.foldlM (fun devices s =>
        (sessionDeviceLabel H s).map fun label => bump H devices label) acc
      = some ((sessArr.map (deviceLabelOf H)).foldl (bump H) acc) := by
  induction sessArr generalizing acc with
  | nil => rfl
  | cons s ss ih =>
    rw [List.foldlM_cons, sessionDeviceLabel_typed H s (h s (List.mem_cons_self _ _))]
    exact ih (fun x hx => h x (List.mem_cons_of_mem _ hx)) _

theorem sessionDevices_typed (H : Host) (sessArr : List JObj)
    (h : ∀ s ∈ sessArr, strOrAbsent (prop s "device") = true) :
    sessionDevices H sessArr = some (countKeys H (sessArr.map (deviceLabelOf H))) :=
  sessionDevices_fold H sessArr h []

theorem pageViewDeviceLabel_typed (H : Host) (pv : JObj)
    (h : strOrAbsent (prop pv "device") = true) :
    pageViewDeviceLabel H pv = (pageViewLabelOf H pv).map some := by
  unfold pageViewDeviceLabel pageViewLabelOf
  cases hv : prop pv "device" with
  | undefined => simp [JVal.truthy]
  | str d =>
    by_cases hd : d = ""
    · subst hd; simp [JVal.truthy]
    · simp [JVal.truthy, hd]
  | _ => rw [hv] at h; simp [strOrAbsent] at h

theorem pageViewDevices_typed (H : Host) (pvArr : List JObj)
    (h : ∀ pv ∈ pvArr, strOrAbsent (prop pv "device") = true) (acc : JObj) :
    pageViewDevices H acc pvArr
      = some ((pvArr.filterMap (pageViewLabelOf H)).foldl (bump H) acc) := by
  unfold pageViewDevices
  induction pvArr generalizing acc with
  | nil => rfl
  | cons pv pvs ih =>
    have ih' := fun a => ih (fun x hx => h x (List.mem_cons_of_mem _ hx)) a
    rw [List.foldlM_cons, pageViewDeviceLabel_typed H pv (h pv (List.mem_cons_self _ _))]
    cases hl : pageViewLabelOf H pv with
    | none =>
      rw [List.filterMap_cons_none hl]
      exact ih' acc
    | some label =>
      rw [List.filterMap_cons_some hl, List.foldl_cons]
      exact ih' (bump H acc label)

theorem sum_tallyBump (t : List (String × Nat)) (k : String) :
    ((tallyBump t k).map Prod.snd).sum = (t.map Prod.snd).sum + 1 := by
  induction t with
  | nil => simp [tallyBump]
  | cons e t ih =>
    obtain ⟨k', n⟩ := e
    by_cases hk : k' = k
    · simp [tallyBump, hk]; omega
    · simp [tallyBump, hk, ih]; omega

theorem sum_tallyKeys (ks : List String) : ((tallyKeys ks).map Prod.snd).sum = ks.length := by
  induction ks using List.reverseRecOn with
  | nil => simp [tallyKeys]
  | append_singleton ks k ih => rw [tallyKeys_snoc, sum_tallyBump, ih]; simp

theorem count_map_eq_length_filter {α : Type} (f : α → String) (l : List α) (k : String) :
    (l.map f).count k = (l.filter fun x => f x = k).length := by
  induction l with
  | nil => rfl
  | cons x xs ih =>
    by_cases h : f x = k
    · simp [List.filter_cons, h, ih]
    · simp [List.filter_cons, h, ih, List.count_cons]

/-- The device chart of a non-empty list of sessions whose `device` is a string
or absent, when no label names a property of `Object.prototype`: for every two
page-view arguments the chart is the same, the rows of the table that counts
each session once, under its capitalised `device` or, when it has none, under
`detectDevice` of its `userAgent`, which is one of `Mobile`, `Tablet`,
`Desktop`; page-view `device` fields are not counted. For the empty session
list it is the page views with a `device` that are counted, each under its
capitalised `device`. -/
theorem renderDeviceChart_sessions_first (H : Host) (sessArr : List JObj)
    (pv1 pv2 : Option (List JObj)) (hne : sessArr ≠ [])
    (htyped : ∀ s ∈ sessArr, strOrAbsent (prop s "device") = true)
    (hnames : ∀ s ∈ sessArr, deviceLabelOf H s ∉ prototypeNames) :
    renderDeviceChart H sessArr pv1 = renderDeviceChart H sessArr pv2
    ∧ renderDeviceChart H sessArr pv1
        = some ((objectEntries (tallyKeys (sessArr.map (deviceLabelOf H)))).map numbered)
    ∧ (∀ e ∈ objectEntries (tallyKeys (sessArr.map (deviceLabelOf H))),
        e.2 = (sessArr.filter fun s => deviceLabelOf H s = e.1).length ∧ 0 < e.2)
    ∧ ((objectEntries (tallyKeys (sessArr.map (deviceLabelOf H)))).map Prod.snd).sum
        = sessArr.length
    ∧ (∀ s ∈ sessArr, (prop s "device").truthy = false →
        deviceLabelOf H s = detectDevice (toStr H ((prop s "userAgent").or (.str "")))
        ∧ deviceLabelOf H s ∈ ["Mobile", "Tablet", "Desktop"])
    ∧ (∀ s ∈ sessArr, ∀ d : String, prop s "device" = .str d → d ≠ "" →
        deviceLabelOf H s = capitalize H d)
    ∧ (∀ pvArr : List JObj, (∀ pv ∈ pvArr, strOrAbsent (prop pv "device") = true) →
        (∀ label ∈ pvArr.filterMap (pageViewLabelOf H), label ∉ prototypeNames) →
        renderDeviceChart H [] (some pvArr)
          = some (if (objectEntries (tallyKeys (pvArr.filterMap (pageViewLabelOf H)))).length
                = 0 then [("No data", .num 1)]
              else (objectEntries (tallyKeys (pvArr.filterMap (pageViewLabelOf H)))).map
                numbered)) := by
  have hnames' : ∀ k ∈ sessArr.map (deviceLabelOf H), k ∉ prototypeNames := by
    intro k hmem
    obtain ⟨s, hs, rfl⟩ := List.mem_map.mp hmem
    exact hnames s hs
  have hmain : ∀ pv, renderDeviceChart H sessArr pv
      = some ((objectEntries (tallyKeys (sessArr.map (deviceLabelOf H)))).map numbered) := by
    intro pv
    have hlen : (objectEntries (tallyKeys (sessArr.map (deviceLabelOf H)))).length ≠ 0 := by
      rw [(objectEntries_perm _).length_eq, length_tallyKeys]
      obtain ⟨s, ss, rfl⟩ := List.exists_cons_of_ne_nil hne
      simp
    have hb : ((objectEntries (countKeys H (sessArr.map (deviceLabelOf H)))).length == 0)
        = false := by
      rw [countKeys_numbered H _ hnames', objectEntries_numbered, List.length_map]
      simpa using hlen
    unfold renderDeviceChart
    rw [sessionDevices_typed H sessArr htyped]
    simp only [Option.some_bind, hb, Option.map_some']
    rw [countKeys_numbered H _ hnames', objectEntries_numbered]
    simp
  refine ⟨(hmain pv1).trans (hmain pv2).symm, hmain pv1, ?_, ?_, ?_, ?_, ?_⟩
  · intro e he
    have hmem := (mem_tallyKeys _ e).mp ((objectEntries_perm _).mem_iff.mp he)
    rw [← count_map_eq_length_filter]
    exact ⟨hmem.2, hmem.2 ▸ List.count_pos_iff.mpr hmem.1⟩
  · rw [((objectEntries_perm _).map Prod.snd).sum_eq, sum_tallyKeys, List.length_map]
  · intro s _ hd
    have hl : deviceLabelOf H s
        = detectDevice (toStr H ((prop s "userAgent").or (.str ""))) := by
      unfold deviceLabelOf
      cases hv : prop s "device" with
      | str d =>
        rw [hv] at hd
        have : d = "" := by simpa [JVal.truthy] using hd
        simp [this]
      | _ => rfl
    exact ⟨hl, hl ▸ detectDevice_mem _⟩
  · intro s _ d hd hne'
    simp [deviceLabelOf, hd, hne']
  · intro pvArr hpv hlabels
    have h0 : ((objectEntries ([] : JObj)).length == 0) = true := by decide
    have hfold : (pvArr.filterMap (pageViewLabelOf H)).foldl (bump H) []
        = (tallyKeys (pvArr.filterMap (pageViewLabelOf H))).map numbered :=
      countKeys_numbered H _ hlabels
    unfold renderDeviceChart sessionDevices
    simp only [List.foldlM_nil, Option.pure_def, Option.some_bind, h0,
      pageViewDevices_typed H pvArr hpv, Option.map_some', hfold, objectEntries_numbered,
      List.length_map]
    simp

/-- Three sessions and two different page-view arguments: the chart shows one
mobile and two desktop sessions either way. -/
theorem renderDeviceChart_sample_three_sessions :
    renderDeviceChart sampleHost sampleDeviceSessions (some [[("device", .str "tablet")]])
      = renderDeviceChart sampleHost sampleDeviceSessions none
    ∧ renderDeviceChart sampleHost sampleDeviceSessions none
      = some [("Mobile", .num 1), ("Desktop", .num 2)] :=
  ⟨(renderDeviceChart_sessions_first sampleHost sampleDeviceSessions
      (some [[("device", .str "tablet")]]) none (by decide) (by decide) (by decide)).1,
    by decide⟩

/-- With no session, the page views that have a `device` are counted, and
without any the chart shows the placeholder. -/
theorem renderDeviceChart_fallback_sample :
    renderDeviceChart sampleHost []
        (some [[("device", .str "tablet")], [("page", .str "/")], [("device", .str "MOBILE")]])
      = some [("Tablet", .num 1), ("Mobile", .num 1)]
    ∧ renderDeviceChart sampleHost [] (some [[("page", .str "/")]])
      = some [("No data", .num 1)]
    ∧ renderDeviceChart sampleHost [] none = some [("No data", .num 1)] := by
  decide

/-- Claim C16 fails on a session whose `device` is `__proto__`: the statement
`devices[label] = ...` creates no property, the table of the sessions stays
empty and the fallback loop runs, so the chart depends on the page views: it
shows one mobile visit when a page view has the device `mobile`, and the
placeholder when there is no page view, although the session list is not
empty. -/
theorem C16_proto_device_counts_page_views :
    (∀ H : Host, sessionDevices H sampleProtoDeviceSessions = some [])
    ∧ (∀ H : Host,
        renderDeviceChart H sampleProtoDeviceSessions (some [[("device", .str "mobile")]])
          = some [("Mobile", .num 1)])
    ∧ (∀ H : Host,
        renderDeviceChart H sampleProtoDeviceSessions (some []) = some [("No data", .num 1)])
    ∧ sampleProtoDeviceSessions ≠ []
    ∧ (∀ s ∈ sampleProtoDeviceSessions, strOrAbsent (prop s "device") = true)
    ∧ ¬ (∀ (H : Host) (sessArr : List JObj) (pv1 pv2 : Option (List JObj)), sessArr ≠ [] →
          (∀ s ∈ sessArr, strOrAbsent (prop s "device") = true) →
          renderDeviceChart H sessArr pv1 = renderDeviceChart H sessArr pv2) := by
  refine ⟨fun H => rfl, fun H => rfl, fun H => rfl, by decide, by decide, ?_⟩
  intro h
  have h2 := h sampleHost sampleProtoDeviceSessions (some [[("device", .str "mobile")]])
    (some []) (by decide) (by decide)
  exact absurd h2 (by decide)

/-! ## Date keys -/

theorem toDigits_four (n : Nat) (h1 : 1000 ≤ n) (h2 : n < 10000) :
    Nat.toDigits 10 n = [Nat.digitChar (n / 1000), Nat.digitChar (n / 100 % 10),
      Nat.digitChar (n / 10 % 10), Nat.digitChar (n % 10)] := by
  obtain ⟨k, rfl⟩ : ∃ k, n = k + 3 := ⟨n - 3, by omega⟩
  have a0 : (k + 3) / 10 ≠ 0 := by omega
  have a1 : (k + 3) / 10 / 10 ≠ 0 := by omega
  have a2 : (k + 3) / 10 / 10 / 10 ≠ 0 := by omega
  have a3 : (k + 3) / 10 / 10 / 10 / 10 = 0 := by omega
  have b1 : (k + 3) / 10 / 10 % 10 = (k + 3) / 100 % 10 := by omega
  have b2 : (k + 3) / 10 / 10 / 10 % 10 = (k + 3) / 1000 := by omega
  simp only [Nat.toDigits, Nat.toDigitsCore, a0, a1, a2, a3, if_false, if_true, b1, b2]

theorem padStart2_two (n : Nat) (h : n < 100) :
    (padStart2 (toString n)).data = [Nat.digitChar (n / 10), Nat.digitChar (n % 10)] := by
  have hd : (toString n).data = Nat.toDigits 10 n := rfl
  unfold padStart2
  rw [hd]
  by_cases h10 : n < 10
  · have h0 : n / 10 = 0 := by omega
    have h1 : n % 10 = n := by omega
    simp [Nat.toDigits, Nat.toDigitsCore, h0, h1]
    rfl
  · obtain ⟨k, rfl⟩ : ∃ k, n = k + 1 := ⟨n - 1, by omega⟩
    have a0 : (k + 1) / 10 ≠ 0 := by omega
    have a1 : (k + 1) / 10 / 10 = 0 := by omega
    have a2 : (k + 1) / 10 % 10 = (k + 1) / 10 := by omega
    simp [Nat.toDigits, Nat.toDigitsCore, a0, a1, a2]

theorem localDateStr_data (now d : LocalDate) (h : isCalendarDate d = true) :
    (localDateStr now (some d)).data = isoDigits d := by
  simp only [isCalendarDate, decide_eq_true_eq] at h
  have hy : (toString d.year).data = Nat.toDigits 10 d.year := rfl
  unfold localDateStr isoDigits
  simp only [Option.getD_some, String.data_append, hy, toDigits_four d.year h.1 (by omega),
    padStart2_two (d.month + 1) (by omega), padStart2_two d.date (by omega)]
  rfl

theorem digitChar_lt_iff (a b : Nat) (ha : a < 10) (hb : b < 10) :
    Nat.digitChar a < Nat.digitChar b ↔ a < b := by
  interval_cases a <;> interval_cases b <;> decide

theorem digitChar_eq_iff (a b : Nat) (ha : a < 10) (hb : b < 10) :
    Nat.digitChar a = Nat.digitChar b ↔ a = b := by
  interval_cases a <;> interval_cases b <;> decide

theorem lexLt_digit_cons (a b : Nat) (ha : a < 10) (hb : b < 10) (as bs : List Char) :
    lexLt (Nat.digitChar a :: as) (Nat.digitChar b :: bs) = true
      ↔ a < b ∨ (a = b ∧ lexLt as bs = true) := by
  simp only [lexLt, Bool.or_eq_true, decide_eq_true_eq, Bool.and_eq_true, beq_iff_eq,
    digitChar_lt_iff a b ha hb, digitChar_eq_iff a b ha hb]

theorem lexLt_same_cons (c : Char) (as bs : List Char) :
    lexLt (c :: as) (c :: bs) = lexLt as bs := by
  simp [lexLt]

theorem lexLt_isoDigits (d1 d2 : LocalDate)
    (h1 : isCalendarDate d1 = true) (h2 : isCalendarDate d2 = true) :
    lexLt (isoDigits d1) (isoDigits d2) = true ↔ ¬ notLater d2 d1 := by
  simp only [isCalendarDate, decide_eq_true_eq] at h1 h2
  obtain ⟨y1, m1, day1⟩ := d1
  obtain ⟨y2, m2, day2⟩ := d2
  simp only at h1 h2
  unfold isoDigits notLater
  simp only
  rw [lexLt_digit_cons _ _ (by omega) (by omega), lexLt_digit_cons _ _ (by omega) (by omega),
    lexLt_digit_cons _ _ (by omega) (by omega), lexLt_digit_cons _ _ (by omega) (by omega),
    lexLt_same_cons,
    lexLt_digit_cons _ _ (by omega) (by omega), lexLt_digit_cons _ _ (by omega) (by omega),
    lexLt_same_cons,
    lexLt_digit_cons _ _ (by omega) (by omega), lexLt_digit_cons _ _ (by omega) (by omega)]
  simp only [lexLt, Bool.false_eq_true, and_false, or_false]
  omega

/-- Claim C15. For all calendar dates with a year of four digits,
`localDateStr` yields the ten characters `YYYY-MM-DD`, month and day padded
with a zero to two digits, and the key of `d1` is at most the key of `d2` in
lexicographic order if and only if `d1` is not a later calendar day than `d2`;
so a date key lies in the range `[startDate, endDate]` of `getDateRange` if and
only if its date lies between the start of the window and today. -/
theorem C15_date_keys (now d1 d2 : LocalDate)
    (h1 : isCalendarDate d1 = true) (h2 : isCalendarDate d2 = true) :
    (localDateStr now (some d1)).data = isoDigits d1
    ∧ (localDateStr now (some d1)).length = 10
    ∧ (keyLe (localDateStr now (some d1)) (localDateStr now (some d2)) = true
        ↔ notLater d1 d2)
    ∧ (∀ (analyticsDays : Int) (setDate : LocalDate → Int → LocalDate) (days : Option Int),
        isCalendarDate now = true →
        isCalendarDate (rangeStart analyticsDays now setDate days) = true →
        (keyLe (getDateRange analyticsDays now setDate days).startDate
              (localDateStr now (some d1)) = true
            ∧ keyLe (localDateStr now (some d1))
              (getDateRange analyticsDays now setDate days).endDate = true
          ↔ notLater (rangeStart analyticsDays now setDate days) d1 ∧ notLater d1 now)) := by
  have hle : ∀ a b : LocalDate, isCalendarDate a = true → isCalendarDate b = true →
      (keyLe (localDateStr now (some a)) (localDateStr now (some b)) = true ↔ notLater a b) := by
    intro a b ha hb
    unfold keyLe
    rw [localDateStr_data now a ha, localDateStr_data now b hb, Bool.not_eq_true',
      ← Bool.not_eq_true, lexLt_isoDigits b a hb ha, not_not]
  refine ⟨localDateStr_data now d1 h1, ?_, hle d1 d2 h1 h2, ?_⟩
  · rw [String.length, localDateStr_data now d1 h1]
    rfl
  · intro analyticsDays setDate days hnow hstart
    have hend : (getDateRange analyticsDays now setDate days).endDate
        = localDateStr now (some now) := rfl
    rw [hend, hle d1 now h1 hnow]
    unfold getDateRange
    rw [hle _ d1 hstart h1]

/-- Claim C15 at 9 May and 10 May 2024, with a window of seven days that ends
on 10 May: the keys are `2024-05-09` and `2024-05-10`, in this order, and the
first lies in the range `2024-05-04` to `2024-05-10`. -/
theorem C15_sample_may_2024 :
    localDateStr ⟨2024, 4, 10⟩ (some ⟨2024, 4, 9⟩) = "2024-05-09"
    ∧ localDateStr ⟨2024, 4, 10⟩ none = "2024-05-10"
    ∧ getDateRange 7 ⟨2024, 4, 10⟩ sampleSetDate none = ⟨"2024-05-04", "2024-05-10"⟩
    ∧ keyLe "2024-05-09" "2024-05-10" = true
    ∧ (keyLe (localDateStr ⟨2024, 4, 10⟩ (some ⟨2024, 4, 9⟩))
          (localDateStr ⟨2024, 4, 10⟩ (some ⟨2024, 4, 10⟩)) = true
        ↔ notLater ⟨2024, 4, 9⟩ ⟨2024, 4, 10⟩) :=
  ⟨by decide, by decide, by decide, by decide,
    (C15_date_keys ⟨2024, 4, 10⟩ ⟨2024, 4, 9⟩ ⟨2024, 4, 10⟩ (by decide) (by decide)).2.2.1⟩

/-! ## Reporter state -/

theorem inv_init : Reporter.init.Inv := by
  simp [Reporter.Inv, Reporter.init]

theorem inv_subscribe (ready : Bool) (reply : SubscribeReply) (s : Reporter) (h : s.Inv) :
    (subscribeLiveVisitors ready reply s).Inv := by
  unfold subscribeLiveVisitors
  split
  · exact h
  · rename_i hg
    simp only [Bool.or_eq_true, Bool.not_eq_true', not_or, Bool.not_eq_true,
      Bool.not_eq_false] at hg
    have h0 := h.2 hg.1
    cases reply <;> simp [Reporter.Inv, h0, h.1, hg.1]

theorem inv_cleanup (s : Reporter) (h : s.Inv) : (cleanupAnalytics s).Inv := by
  unfold cleanupAnalytics Reporter.Inv
  cases hr : s.livePresenceRef
  · simp [h.2 hr]
  · simp

theorem inv_renderChart (k : String) (s : Reporter) (h : s.Inv) : (renderChart k s).Inv := h

theorem inv_renderCharts (ks : List String) (s : Reporter) (h : s.Inv) :
    (ks.foldl (fun s k => renderChart k s) s).Inv := by
  induction ks generalizing s with
  | nil => exact h
  | cons k ks ih => exact ih _ (inv_renderChart k s h)

theorem inv_step (s : Reporter) (h : s.Inv) (st : ReporterStep) : (st.run s).Inv := by
  cases st with
  | renderChart k => exact inv_renderChart k s h
  | subscribeLiveVisitors ready reply => exact inv_subscribe ready reply s h
  | cleanupAnalytics => exact inv_cleanup s h

theorem inv_call (s : Reporter) (h : s.Inv) (c : ReporterCall) : (c.run s).Inv := by
  cases c with
  | refreshAnalytics ready rendered readyAtEnd reply =>
    simp only [ReporterCall.run, refreshAnalytics]
    split
    · exact h
    · exact inv_subscribe _ _ _ (inv_renderCharts rendered s h)
  | subscribeLiveVisitors ready reply => exact inv_subscribe ready reply s h
  | cleanupAnalytics => exact inv_cleanup s h

theorem inv_foldl {α : Type} (run : Reporter → α → Reporter)
    (hrun : ∀ s, s.Inv → ∀ a, (run s a).Inv) (l : List α) (s : Reporter) (h : s.Inv) :
    (l.foldl run s).Inv := by
  induction l generalizing s with
  | nil => exact h
  | cons a l ih => exact ih _ (hrun s h a)

/-- Claim C13. From the state with no subscription, after any sequence of calls
of `refreshAnalytics`, `subscribeLiveVisitors` and `cleanupAnalytics`, and
after any sequence of the steps of which overlapping refreshes are made, at
most one presence listener is registered; a call of `subscribeLiveVisitors`
made while `livePresenceRef` is held changes nothing; and `cleanupAnalytics`
leaves no listener, `livePresenceRef` null and an empty chart map, every chart
of the map destroyed. -/
theorem C13_single_subscription (calls : List ReporterCall) (steps : List ReporterStep) :
    (runCalls calls).listeners ≤ 1
    ∧ (steps.foldl ReporterStep.run (runCalls calls)).listeners ≤ 1
    ∧ (∀ (ready : Bool) (reply : SubscribeReply), (runCalls calls).livePresenceRef = true →
        subscribeLiveVisitors ready reply (runCalls calls) = runCalls calls)
    ∧ (cleanupAnalytics (runCalls calls)).listeners = 0
    ∧ (cleanupAnalytics (runCalls calls)).livePresenceRef = false
    ∧ (cleanupAnalytics (runCalls calls)).charts = []
    ∧ (∀ e ∈ (runCalls calls).charts, e.2 ∈ (cleanupAnalytics (runCalls calls)).destroyed) := by
  have hinv : (runCalls calls).Inv := inv_foldl ReporterCall.run inv_call calls _ inv_init
  have hsteps := inv_foldl ReporterStep.run inv_step steps _ hinv
  refine ⟨hinv.1, hsteps.1, ?_, ?_, rfl, rfl, ?_⟩
  · intro ready reply href
    simp [subscribeLiveVisitors, href]
  · have := (inv_cleanup _ hinv).2 rfl
    exact this
  · intro e he
    simp only [cleanupAnalytics, List.mem_append, List.mem_map]
    exact Or.inr ⟨e, he, rfl⟩

/-- Three rapid refreshes and a direct subscription leave one listener and the
four charts; the teardown leaves none; the refresh after it subscribes again. -/
theorem runCalls_sample :
    (runCalls (sampleCalls.take 4)).listeners = 1
    ∧ (runCalls (sampleCalls.take 4)).charts.map Prod.fst
        = ["sources", "device", "traffic", "funnel"]
    ∧ (runCalls (sampleCalls.take 5)).listeners = 0
    ∧ (runCalls (sampleCalls.take 5)).charts = []
    ∧ (runCalls sampleCalls).listeners = 1 := by
  decide

/-! ## Declining and cancelling a booking -/

/-- Claim C11, as stated, fails: with an empty reason and a store that rejects
the update, `declineBooking` and `cancelBooking` make their one update and
write no log entry. -/
theorem C11_rejected_update_not_logged :
    declineBooking sampleRejectedReplies "-b1"
      = [.prompt "Reason for declining (optional):",
          .fbUpdate "/trial_bookings/-b1"
            [("status", .str "declined"), ("decline_reason", .str ""),
              ("updated_at", .str "2024-05-10T09:30:00.000Z")],
          .consoleError "Decline booking error:",
          .alert "Failed to decline booking: PERMISSION_DENIED"]
    ∧ ((declineBooking sampleRejectedReplies "-b1").filter Effect.isLog).length = 0
    ∧ ((cancelBooking sampleRejectedReplies "-b1").filter Effect.isLog).length = 0
    ∧ ¬ (∀ (R : Replies) (key : String), R.prompt = some "" →
          ((declineBooking R key).filter Effect.isLog).length = 1) := by
  refine ⟨by decide, by decide, by decide, ?_⟩
  intro h
  exact absurd (h sampleRejectedReplies "-b1" rfl) (by decide)

/-- Claim C11, amended. When the reason prompt returns null, `declineBooking`
and `cancelBooking` make no call after the prompt: no store write, no log
entry, no email. When it returns the empty string, they make exactly one store
write, an update of `/trial_bookings/<key>` that sets `status` to `declined`
(resp. `cancelled`) and `decline_reason` (resp. `cancel_reason`) to the empty
string; when the store accepts that update, exactly one log entry follows it
directly; when the store rejects it, no log entry is written and no email is
sent. -/
theorem C11_decline_cancel (R : Replies) (key : String) :
    (R.prompt = none →
        declineBooking R key = [.prompt "Reason for declining (optional):"]
        ∧ cancelBooking R key = [.prompt "Reason for cancelling (optional):"]
        ∧ (declineBooking R key).filter Effect.isWrite = []
        ∧ (declineBooking R key).filter Effect.isLog = []
        ∧ (declineBooking R key).filter Effect.isEmail = []
        ∧ (cancelBooking R key).filter Effect.isWrite = []
        ∧ (cancelBooking R key).filter Effect.isLog = []
        ∧ (cancelBooking R key).filter Effect.isEmail = [])
    ∧ (R.prompt = some "" →
        (declineBooking R key).filter Effect.isWrite
          = [.fbUpdate ("/trial_bookings/" ++ key)
              [("status", .str "declined"), ("decline_reason", .str ""),
                ("updated_at", .str R.now)]]
        ∧ (cancelBooking R key).filter Effect.isWrite
          = [.fbUpdate ("/trial_bookings/" ++ key)
              [("status", .str "cancelled"), ("cancel_reason", .str ""),
                ("updated_at", .str R.now)]])
    ∧ (R.prompt = some "" → R.updateOk = true →
        (declineBooking R key).filter Effect.isLog
          = [.logActivity "booking_declined" ("Declined trial booking: " ++ key) "booking"]
        ∧ (cancelBooking R key).filter Effect.isLog
          = [.logActivity "booking_cancelled" ("Cancelled trial booking: " ++ key) "booking"]
        ∧ (∃ rest, declineBooking R key
            = .prompt "Reason for declining (optional):"
              :: .fbUpdate ("/trial_bookings/" ++ key)
                  [("status", .str "declined"), ("decline_reason", .str ""),
                    ("updated_at", .str R.now)]
              :: .logActivity "booking_declined" ("Declined trial booking: " ++ key) "booking"
              :: rest)
        ∧ (∃ rest, cancelBooking R key
            = .prompt "Reason for cancelling (optional):"
              :: .fbUpdate ("/trial_bookings/" ++ key)
                  [("status", .str "cancelled"), ("cancel_reason", .str ""),
                    ("updated_at", .str R.now)]
              :: .logActivity "booking_cancelled" ("Cancelled trial booking: " ++ key) "booking"
              :: rest))
    ∧ (R.prompt = some "" → R.updateOk = false →
        (declineBooking R key).filter Effect.isLog = []
        ∧ (declineBooking R key).filter Effect.isEmail = []
        ∧ (cancelBooking R key).filter Effect.isLog = []
        ∧ (cancelBooking R key).filter Effect.isEmail = []) := by
  refine ⟨?_, ?_, ?_, ?_⟩
  · intro hp
    simp [declineBooking, cancelBooking, hp, Effect.isWrite, Effect.isLog, Effect.isEmail]
  · intro hp
    cases hu : R.updateOk <;> cases ho : R.once <;>
      cases he : R.emailDefined <;>
      simp [declineBooking, cancelBooking, hp, hu, ho, he, Effect.isWrite, List.filter_cons]
  · intro hp hu
    refine ⟨?_, ?_, ⟨_, by simp only [declineBooking, hp, hu, if_true]; rfl⟩,
      ⟨_, by simp only [cancelBooking, hp, hu, if_true]; rfl⟩⟩
    · cases ho : R.once <;> cases he : R.emailDefined <;>
        simp [declineBooking, hp, hu, ho, he, Effect.isLog, List.filter_cons]
    · cases ho : R.once <;> cases he : R.emailDefined <;>
        simp [cancelBooking, hp, hu, ho, he, Effect.isLog, List.filter_cons]
  · intro hp hu
    simp [declineBooking, cancelBooking, hp, hu, Effect.isLog, Effect.isEmail]

/-- With an empty reason and a store that accepts the update, the update is
followed by the log entry, the read of the booking, the email and the
refresh. -/
theorem declineBooking_sample :
    declineBooking sampleReplies "-b1"
      = [.prompt "Reason for declining (optional):",
          .fbUpdate "/trial_bookings/-b1"
            [("status", .str "declined"), ("decline_reason", .str ""),
              ("updated_at", .str "2024-05-10T09:30:00.000Z")],
          .logActivity "booking_declined" "Declined trial booking: -b1" "booking",
          .fbOnce "/trial_bookings/-b1",
          .sendBrandedEmail (.str "a@x.com") "Booking Update - Sanz the Nanny" "Booking Update",
          .refreshBookings]
    ∧ cancelBooking { sampleReplies with prompt := none } "-b1"
      = [.prompt "Reason for cancelling (optional):"] := by
  decide

/-! ## Converting a booking to a client -/

theorem clientChild_obj (c : JObj) : clientChild (.obj c) = some (convertedChild c) := rfl

theorem mapM_clientChild_obj (cs : List JObj) :
    (cs.map JVal.obj).mapM clientChild = some (cs.map convertedChild) := by
  induction cs with
  | nil => rfl
  | cons c cs ih =>
    rw [List.map_cons, List.mapM_cons, clientChild_obj, ih]
    rfl

theorem clientChildren_of_records (booking : JObj) (cs : List JObj)
    (h : childrenOf booking = some (cs.map JVal.obj)) :
    clientChildren booking = some (cs.map convertedChild) := by
  unfold clientChildren
  rw [h]
  exact mapM_clientChild_obj cs

/-- Claim C12, as stated, fails: the child of the converted booking has age 0,
and the child of the client record has the empty string as its age. -/
theorem C12_infant_age_lost :
    (convertToClient sampleHost sampleReplies [sampleInfantBooking] "-b2").filter Effect.isWrite
      = [.fbPush "/clients"
            [("family_name", .str "Eva"), ("parent_name", .str "Eva"), ("email", .str ""),
              ("phone", .str ""),
              ("children", arrayOf [.obj [("name", .str "Tom"), ("age", .str ""),
                ("allergies", .str ""), ("notes", .str "")]]),
              ("notes", .str "Converted from trial booking on —"), ("status", .str "active"),
              ("source", .str "trial_booking"),
              ("created_at", .str "2024-05-10T09:30:00.000Z")],
          .fbUpdate "/trial_bookings/-b2"
            [("status", .str "accepted"), ("converted_to_client", .bool true),
              ("updated_at", .str "2024-05-10T09:30:00.000Z")]]
    ∧ childrenOf sampleInfantBooking
        = some [.obj [("name", .str "Tom"), ("age", .num 0)]]
    ∧ prop (convertedChild [("name", .str "Tom"), ("age", .num 0)]) "age" = .str ""
    ∧ prop (convertedChild [("name", .str "Tom"), ("age", .num 0)]) "age"
        ≠ prop [("name", .str "Tom"), ("age", .num 0)] "age" := by
  decide

/-- Claim C12, amended. For a booking `b` found in the local cache whose
`children` are absent or a list of records, with the store ready, the user
confirming and the writes accepted, `convertToClient` makes exactly two store
writes: it appends one client record, whose `parent_name`, `email` and `phone`
are those of `b` (the empty string when absent) and whose children list has
one entry per child of `b`, in order, with the name and the age of the child
when these are set and the empty string in place of a name or an age that is
absent or falsy (an age of 0); then it updates that booking, setting `status`
to `accepted` and `converted_to_client` to true. When the key is not in the
cache it makes no write. -/
theorem C12_convert_to_client (H : Host) (R : Replies) (cache : List JObj) (key : String)
    (b : JObj) (cs : List JObj)
    (hfind : cache.find? (fun b => decide (prop b "_key" = .str key)) = some b)
    (hchildren : childrenOf b = some (cs.map JVal.obj))
    (hready : R.firebaseReady = true) (hconfirm : R.confirm = true)
    (hpush : R.pushOk = true) (hupdate : R.updateOk = true) :
    (convertToClient H R cache key).filter Effect.isWrite
      = [.fbPush "/clients" (clientData H R.now b (cs.map convertedChild)),
          .fbUpdate ("/trial_bookings/" ++ key)
            [("status", .str "accepted"), ("converted_to_client", .bool true),
              ("updated_at", .str R.now)]]
    ∧ prop (clientData H R.now b (cs.map convertedChild)) "parent_name"
        = (prop b "parent_name").or (.str "")
    ∧ prop (clientData H R.now b (cs.map convertedChild)) "email"
        = (prop b "email").or (.str "")
    ∧ prop (clientData H R.now b (cs.map convertedChild)) "phone"
        = (prop b "phone").or (.str "")
    ∧ prop (clientData H R.now b (cs.map convertedChild)) "children"
        = arrayOf ((cs.map convertedChild).map JVal.obj)
    ∧ (cs.map convertedChild).length = cs.length
    ∧ (∀ c : JObj,
        prop (convertedChild c) "name"
            = (if (prop c "name").truthy then prop c "name" else .str "")
        ∧ prop (convertedChild c) "age"
            = (if (prop c "age").truthy then prop c "age" else .str ""))
    ∧ (∀ (cache' : List JObj) (key' : String),
        cache'.find? (fun b => decide (prop b "_key" = .str key')) = none →
        (convertToClient H R cache' key').filter Effect.isWrite = []) := by
  refine ⟨?_, rfl, rfl, rfl, rfl, List.length_map _ _, fun c => ⟨rfl, rfl⟩, ?_⟩
  · unfold convertToClient
    rw [hfind]
    simp only [hready, hconfirm, hpush, hupdate, clientChildren_of_records b cs hchildren,
      Bool.not_true, Bool.false_eq_true, if_false]
    simp [List.filter_cons, Effect.isWrite]
  · intro cache' key' hnone
    unfold convertToClient
    rw [hnone]
    rfl

/-- The amended claim C12 at the booking of Ana with her child Lea, aged 4: one
client record is appended, with Ana, her address and Lea, and the booking is
marked accepted and converted. -/
theorem C12_sample_ana :
    (convertToClient sampleHost sampleReplies [sampleInfantBooking, sampleBooking] "-b1").filter
        Effect.isWrite
      = [.fbPush "/clients"
            (clientData sampleHost "2024-05-10T09:30:00.000Z" sampleBooking
              [[("name", .str "Lea"), ("age", .num 4), ("allergies", .str ""),
                ("notes", .str "")]]),
          .fbUpdate "/trial_bookings/-b1"
            [("status", .str "accepted"), ("converted_to_client", .bool true),
              ("updated_at", .str "2024-05-10T09:30:00.000Z")]]
    ∧ prop (clientData sampleHost "2024-05-10T09:30:00.000Z" sampleBooking
          [[("name", .str "Lea"), ("age", .num 4), ("allergies", .str ""), ("notes", .str "")]])
        "parent_name" = .str "Ana"
    ∧ prop (clientData sampleHost "2024-05-10T09:30:00.000Z" sampleBooking
          [[("name", .str "Lea"), ("age", .num 4), ("allergies", .str ""), ("notes", .str "")]])
        "email" = .str "a@x.com" :=
  ⟨(C12_convert_to_client sampleHost sampleReplies [sampleInfantBooking, sampleBooking] "-b1"
      sampleBooking [[("name", .str "Lea"), ("age", .num 4)]]
      (by decide) (by decide) rfl rfl rfl rfl).1,
    by decide, by decide⟩

/-! ## Listing the bookings -/

theorem orderedInsert_congr {α : Type} (r r' : α → α → Prop) [DecidableRel r]
    [DecidableRel r'] (a : α) (l : List α) (h : ∀ b ∈ l, (r a b ↔ r' a b)) :
    l.orderedInsert r a = l.orderedInsert r' a := by
  induction l with
  | nil => rfl
  | cons b l ih =>
    have hb := h b (List.mem_cons_self _ _)
    have ih' := ih fun x hx => h x (List.mem_cons_of_mem _ hx)
    by_cases hr : r a b
    · simp [List.orderedInsert, hr, hb.mp hr]
    · have hr' : ¬ r' a b := fun h' => hr (hb.mpr h')
      simp [List.orderedInsert, hr, hr', ih']

theorem insertionSort_congr {α : Type} (r r' : α → α → Prop) [DecidableRel r]
    [DecidableRel r'] (l : List α) (h : ∀ a ∈ l, ∀ b ∈ l, (r a b ↔ r' a b)) :
    l.insertionSort r = l.insertionSort r' := by
  induction l with
  | nil => rfl
  | cons a l ih =>
    have ih' := ih fun x hx y hy =>
      h x (List.mem_cons_of_mem _ hx) y (List.mem_cons_of_mem _ hy)
    rw [List.insertionSort, List.insertionSort, ih']
    apply orderedInsert_congr
    intro b hb
    have hb' : b ∈ l := (List.perm_insertionSort r' l).mem_iff.mp hb
    exact h a (List.mem_cons_self _ _) b (List.mem_cons_of_mem _ hb')

theorem filter_orderedInsert_key {α : Type} (key : α → Int) (t : Int) (a : α) (l : List α) :
    (l.orderedInsert (fun a b => key b ≤ key a) a).filter (fun e => decide (key e = t))
      = (a :: l).filter fun e => decide (key e = t) := by
  induction l with
  | nil => simp
  | cons b l ih =>
    by_cases hab : key b ≤ key a
    · simp [List.orderedInsert, hab]
    · have hlt : key a < key b := lt_of_not_le hab
      simp only [List.orderedInsert, hab, if_false]
      rw [List.filter_cons, ih]
      by_cases ha : key a = t
      · have hb : ¬ key b = t := by omega
        simp [List.filter_cons, ha, hb]
      · simp [List.filter_cons, ha]

theorem filter_insertionSort_key {α : Type} (key : α → Int) (t : Int) (l : List α) :
    (l.insertionSort fun a b => key b ≤ key a).filter (fun e => decide (key e = t))
      = l.filter fun e => decide (key e = t) := by
  induction l with
  | nil => rfl
  | cons a l ih =>
    rw [List.insertionSort, filter_orderedInsert_key, List.filter_cons, List.filter_cons, ih]

theorem insertionSort_isStableSortDesc {α : Type} (key : α → Int) (l : List α) :
    IsStableSortDesc key l (l.insertionSort fun a b => key b ≤ key a) := by
  haveI : IsTotal α (fun a b => key b ≤ key a) := ⟨fun a b => le_total _ _⟩
  haveI : IsTrans α (fun a b => key b ≤ key a) := ⟨fun a b c h1 h2 => le_trans h2 h1⟩
  exact ⟨List.perm_insertionSort _ l, List.sorted_insertionSort _ l,
    fun t => filter_insertionSort_key key t l⟩

theorem keepsOrder_iff (H : Host) (a b : JObj)
    (ha : (H.dateValue (prop a "created_at")).isSome = true)
    (hb : (H.dateValue (prop b "created_at")).isSome = true) :
    keepsOrder H a b = true ↔ createdAt H b ≤ createdAt H a := by
  obtain ⟨ta, hta⟩ := Option.isSome_iff_exists.mp ha
  obtain ⟨tb, htb⟩ := Option.isSome_iff_exists.mp hb
  simp only [keepsOrder, createdAt, hta, htb, Option.getD_some, decide_eq_true_eq]
  omega

theorem sortedBookings_eq (H : Host) (data : JVal)
    (hrec : ∀ e ∈ entriesOrEmpty data, isBookingRecord H (cacheEntry e.1 e.2) = true) :
    sortedBookings H data
      = ((entriesOrEmpty data).map fun e => cacheEntry e.1 e.2).insertionSort
          fun a b => createdAt H b ≤ createdAt H a := by
  unfold sortedBookings
  apply insertionSort_congr
  intro a ha b hb
  obtain ⟨ea, hea, rfl⟩ := List.mem_map.mp ha
  obtain ⟨eb, heb, rfl⟩ := List.mem_map.mp hb
  have h1 := hrec ea hea
  have h2 := hrec eb heb
  simp only [isBookingRecord, Bool.and_eq_true] at h1 h2
  exact keepsOrder_iff H _ _ h1.1 h2.1

theorem cardOf_of_isSome (b : JObj) (h : (cardOf b).isSome = true) :
    cardOf b = some { booking := b, badgeCls := badgeOf b, actions := actionsOf b } := by
  unfold cardOf at h ⊢
  cases hc : childrenOf b with
  | none => simp [hc] at h
  | some cs =>
    simp only [hc, Option.some_bind] at h ⊢
    cases hm : cs.mapM fun c => readProp c "name" with
    | none =>
      rw [hm] at h
      exact absurd h (by simp)
    | some ns => rfl

theorem mapM_cardOf (l : List JObj) (h : ∀ b ∈ l, (cardOf b).isSome = true) :
    l.mapM cardOf
      = some (l.map fun b => { booking := b, badgeCls := badgeOf b, actions := actionsOf b }) := by
  induction l with
  | nil => rfl
  | cons b l ih =>
    rw [List.mapM_cons, cardOf_of_isSome b (h b (List.mem_cons_self _ _)),
      ih fun x hx => h x (List.mem_cons_of_mem _ hx)]
    rfl

theorem refreshBookings_bookings (H : Host) (data : JVal) (filter : Option String)
    (hrec : ∀ e ∈ entriesOrEmpty data, isBookingRecord H (cacheEntry e.1 e.2) = true) :
    (refreshBookings H true (some data) filter).bookings
      = filteredBookings H data (filterOrAll filter) := by
  have hall : ∀ b ∈ sortedBookings H data, (cardOf b).isSome = true := by
    intro b hb
    have hb' := (List.perm_insertionSort _ _).mem_iff.mp hb
    obtain ⟨e, he, rfl⟩ := List.mem_map.mp hb'
    have h1 := hrec e he
    simp only [isBookingRecord, Bool.and_eq_true] at h1
    exact h1.2
  have hfil : ∀ b ∈ filteredBookings H data (filterOrAll filter), (cardOf b).isSome = true := by
    intro b hb
    unfold filteredBookings at hb
    split at hb
    · exact hall b (List.mem_filter.mp hb).1
    · exact hall b hb
  unfold refreshBookings
  simp only [Bool.not_true, Bool.false_eq_true, if_false]
  split
  · rename_i h0
    simp only [BookingsView.bookings]
    exact (List.length_eq_zero.mp h0).symm
  · rw [mapM_cardOf _ hfil]
    simp [BookingsView.bookings, Function.comp_def]

/-- Claim C14. For every value fetched from the store whose entries are booking
records (a valid `created_at`, children absent or a list) and every filter,
the cards `refreshBookings` renders are those of the bookings sorted in
descending order of `created_at` by a stable sort, restricted to exactly the
bookings whose `status` equals the filter; with the filter `all`, or none, they
are those of the whole sorted list. -/
theorem C14_bookings_listing (H : Host) (data : JVal) (filter : Option String)
    (hrec : ∀ e ∈ entriesOrEmpty data, isBookingRecord H (cacheEntry e.1 e.2) = true) :
    IsStableSortDesc (createdAt H) ((entriesOrEmpty data).map fun e => cacheEntry e.1 e.2)
        (sortedBookings H data)
    ∧ (refreshBookings H true (some data) filter).bookings
        = (if filterOrAll filter = "all" then sortedBookings H data
          else (sortedBookings H data).filter fun b =>
            decide (prop b "status" = .str (filterOrAll filter)))
    ∧ (refreshBookings H true (some data) none).bookings = sortedBookings H data
    ∧ (refreshBookings H true (some data) (some "all")).bookings = sortedBookings H data
    ∧ (∀ f : String, f ≠ "" → f ≠ "all" →
        (refreshBookings H true (some data) (some f)).bookings
          = (sortedBookings H data).filter fun b => decide (prop b "status" = .str f)) := by
  refine ⟨?_, ?_, ?_, ?_, ?_⟩
  · rw [sortedBookings_eq H data hrec]
    exact insertionSort_isStableSortDesc _ _
  · rw [refreshBookings_bookings H data filter hrec]
    unfold filteredBookings
    by_cases h : filterOrAll filter = "all" <;> simp [h]
  · rw [refreshBookings_bookings H data none hrec]
    rfl
  · rw [refreshBookings_bookings H data (some "all") hrec]
    rfl
  · intro f h1 h2
    rw [refreshBookings_bookings H data (some f) hrec]
    simp [filteredBookings, filterOrAll, h1, h2]

/-- Claim C14 at four bookings: the newest comes first, the two created at the
same time keep the order in which they were fetched, and the filter `pending`
leaves the three pending ones in that order. -/
theorem C14_sample_four_bookings :
    ((refreshBookings sampleHost true (some sampleBookingsData) none).bookings.map
        fun b => prop b "_key") = [.str "-b2", .str "-b3", .str "-b4", .str "-b1"]
    ∧ ((refreshBookings sampleHost true (some sampleBookingsData) (some "pending")).bookings.map
        fun b => prop b "_key") = [.str "-b3", .str "-b4", .str "-b1"]
    ∧ (refreshBookings sampleHost true (some sampleBookingsData) (some "pending")).bookings
        = (sortedBookings sampleHost sampleBookingsData).filter fun b =>
            decide (prop b "status" = .str "pending") :=
  ⟨by decide, by decide,
    (C14_bookings_listing sampleHost sampleBookingsData (some "pending") (by decide)).2.2.2.2
      "pending" (by decide) (by decide)⟩

end AnalyticsAdmin
